import Mathlib

/-!
# BinanceChain node: message handlers and block lifecycle

A shallow embedding of the handlers of `plugins/tokens/freeze/handler.go`,
`plugins/tokens/issue/handler.go` and `plugins/dex/order/handler.go`, of
`Msg.ValidateBasic` in `plugins/dex/list/msg.go` and of `BinanceChain.EndBlocker`
in `app/app.go`.

Stores (`accountMapper`, `tokenMapper`) are key-value maps and are embedded as
functions from keys to optional values.  A handler takes the state it is given
through `ctx` and returns the `sdk.Result` together with the state it leaves
behind; a Go panic is the value `none`.
-/

namespace BinanceChain

/-! ## Machine integers -/

/-- Two's-complement reduction of a mathematical integer to `int64`. -/
def wrap64 (x : Int) : Int := (x + 2 ^ 63) % 2 ^ 64 - 2 ^ 63

/-- The largest `int64`. -/
def maxInt64 : Int := 2 ^ 63 - 1

/-- The smallest `int64`. -/
def minInt64 : Int := -(2 ^ 63)

/-- Range predicate of `int64`. -/
def isInt64 (x : Int) : Prop := minInt64 ≤ x ∧ x ≤ maxInt64

instance (x : Int) : Decidable (isInt64 x) := by unfold isInt64; infer_instance

/-! ## `sdk.Coin` and `sdk.Coins`

The cosmos-sdk is a library outside the repository.  `Coins` is its sorted list
of `(Denom, Amount)` entries; `Plus` is its merge of two sorted lists, which
adds the amounts of a denomination present on both sides and drops an entry
whose sum is zero.  The amount arithmetic is a parameter `norm`: the identity
for the `sdk.Int` amounts used by the order handler, `wrap64` for the `int64`
amounts used by the freeze handler. -/

/-- The type `sdk.Coin`. -/
structure Coin where
  Denom : String
  Amount : Int
deriving DecidableEq, Repr

/-- The type `sdk.Coins`. -/
abbrev Coins := List Coin

namespace Coins

/-- `Coins.AmountOf`: the amount held of `denom`, zero when there is no entry.
On a duplicate-free list this is the amount of the one entry of `denom`. -/
def AmountOf : Coins → String → Int
  | [], _ => 0
  | c :: cs, denom => (if c.Denom = denom then c.Amount else 0) + AmountOf cs denom

/-- Lexicographic order on code points. -/
def ltChars : List Char → List Char → Bool
  | [], [] => false
  | [], _ :: _ => true
  | _ :: _, [] => false
  | a :: as, b :: bs =>
    if a.toNat < b.toNat then true
    else if a.toNat = b.toNat then ltChars as bs
    else false

/-- The test `strings.Compare(a, b) == -1`. -/
def strLt (a b : String) : Bool := ltChars a.data b.data

/-- The inner loop of `Coins.Plus` while the head `coinA` of the left list is
fixed: it consumes the right list until `coinA` is emitted, and continues with
`recA`, the merge of the rest `as` of the left list. -/
def PlusWith.go (norm : Int → Int) (coinA : Coin) (as : Coins) (recA : Coins → Coins) :
    Coins → Coins
  | [] => coinA :: as
  | coinB :: bs =>
    if strLt coinA.Denom coinB.Denom then
      coinA :: recA (coinB :: bs)
    else if coinA.Denom = coinB.Denom then
      if norm (coinA.Amount + coinB.Amount) = 0 then
        recA bs
      else
        ⟨coinA.Denom, norm (coinA.Amount + coinB.Amount)⟩ :: recA bs
    else
      coinB :: PlusWith.go norm coinA as recA bs

/-- `Coins.Plus` with amount arithmetic `norm`: the two-index merge loop of the
SDK, by recursion on the left list and, inside, on the right list. -/
def PlusWith (norm : Int → Int) : Coins → Coins → Coins
  | [], coinsB => coinsB
  | coinA :: as, coinsB => PlusWith.go norm coinA as (PlusWith norm as) coinsB

/-- `Coins.Negative` with amount arithmetic `norm`. -/
def NegativeWith (norm : Int → Int) (coins : Coins) : Coins :=
  coins.map fun c => ⟨c.Denom, norm (-c.Amount)⟩

/-- `Coins.Minus`: `coins.Plus(coinsB.Negative())`. -/
def MinusWith (norm : Int → Int) (coins coinsB : Coins) : Coins :=
  PlusWith norm coins (NegativeWith norm coinsB)

/-- `Coins.IsNotNegative`: no entry has a negative amount. -/
def IsNotNegative (coins : Coins) : Bool :=
  coins.all fun c => decide (0 ≤ c.Amount)

/-- `Coins.Plus` on `sdk.Int` amounts. -/
def Plus : Coins → Coins → Coins := PlusWith id

/-- `Coins.Minus` on `sdk.Int` amounts. -/
def Minus : Coins → Coins → Coins := MinusWith id

/-- `Coins.Plus` on `int64` amounts. -/
def Plus64 : Coins → Coins → Coins := PlusWith wrap64

/-- `Coins.Minus` on `int64` amounts. -/
def Minus64 : Coins → Coins → Coins := MinusWith wrap64

end Coins

/-! ## Results and errors -/

/-- Result codes of `sdk.Result`: `OK`, the SDK error codes the handlers use,
and the codes of the dex codespace. -/
inductive CodeType where
  | OK
  | Internal
  | Unauthorized
  | InsufficientCoins
  | InvalidCoins
  | UnknownRequest
  | DuplicatedOrder
  | FailLocateOrderToCancel
  | FailInsertOrder
deriving DecidableEq, Repr

/-- The type `sdk.Result`.  `Log` holds the message the error was built from. -/
structure Result where
  Code : CodeType := CodeType.OK
  Data : String := ""
  Log : String := ""
  Tags : List (String × String) := []
deriving DecidableEq, Repr

/-- The value `sdk.NewError(codespace, code, msg).Result()`. -/
def errResult (code : CodeType) (msg : String) : Result := { Code := code, Log := msg }

/-- The value `sdk.ErrInsufficientCoins(msg)`. -/
def ErrInsufficientCoins (msg : String) : Result := errResult CodeType.InsufficientCoins msg

/-- The value `sdk.ErrInvalidCoins(msg)`. -/
def ErrInvalidCoins (msg : String) : Result := errResult CodeType.InvalidCoins msg

/-- The value `sdk.ErrInternal(msg)`. -/
def ErrInternal (msg : String) : Result := errResult CodeType.Internal msg

/-- The value `sdk.ErrUnauthorized(msg)`. -/
def ErrUnauthorized (msg : String) : Result := errResult CodeType.Unauthorized msg

/-! ## Accounts and the bank keeper -/

/-- The type `sdk.AccAddress`. -/
abbrev AccAddress := String

/-- Modelled from the spec: `common/types.NamedAccount` is not among the source
files; per the account ledger of the data model it carries three buckets per
symbol: `available` (the coins of the base account), `locked` and `frozen`. -/
structure NamedAccount where
  Coins : BinanceChain.Coins := []
  FrozenCoins : BinanceChain.Coins := []
  LockedCoins : BinanceChain.Coins := []
deriving DecidableEq, Repr

/-- The account store behind `auth.AccountMapper`. -/
abbrev AccountMapper := AccAddress → Option NamedAccount

namespace AccountMapper

/-- `accountMapper.GetAccount`: `none` is the nil account. -/
def GetAccount (am : AccountMapper) (addr : AccAddress) : Option NamedAccount := am addr

/-- `accountMapper.SetAccount`. -/
def SetAccount (am : AccountMapper) (addr : AccAddress) (acc : NamedAccount) : AccountMapper :=
  fun a => if a = addr then some acc else am a

end AccountMapper

/-- `bank.Keeper.GetCoins`: the coins of the account, empty for a nil account. -/
def GetCoins (am : AccountMapper) (addr : AccAddress) : Coins :=
  match am.GetAccount addr with
  | none => []
  | some acc => acc.Coins

/-- The keeper's `setCoins`: a nil account is created first. -/
def setCoins (am : AccountMapper) (addr : AccAddress) (amt : Coins) : AccountMapper :=
  match am.GetAccount addr with
  | none => am.SetAccount addr { Coins := amt }
  | some acc => am.SetAccount addr { acc with Coins := amt }

/-- `bank.Keeper.SubtractCoins` with amount arithmetic `norm`: the store it
leaves and the error, if any. -/
def SubtractCoinsWith (norm : Int → Int) (am : AccountMapper) (addr : AccAddress)
    (amt : Coins) : AccountMapper × Option Result :=
  let oldCoins := GetCoins am addr
  let newCoins := Coins.MinusWith norm oldCoins amt
  if !newCoins.IsNotNegative then
    (am, some (ErrInsufficientCoins "insufficient coins"))
  else
    (setCoins am addr newCoins, none)

/-- `bank.Keeper.AddCoins` with amount arithmetic `norm`: the store it leaves
and the error, if any. -/
def AddCoinsWith (norm : Int → Int) (am : AccountMapper) (addr : AccAddress)
    (amt : Coins) : AccountMapper × Option Result :=
  let oldCoins := GetCoins am addr
  let newCoins := Coins.PlusWith norm oldCoins amt
  if !newCoins.IsNotNegative then
    (am, some (ErrInsufficientCoins "insufficient coins"))
  else
    (setCoins am addr newCoins, none)

/-! ## Tokens -/

/-- Modelled from the spec: `common/types.Token` is not among the source files;
the fields are those of the token of the data model. -/
structure Token where
  Name : String
  Symbol : String
  TotalSupply : Int
  Owner : AccAddress
  Decimal : Int
  Mintable : Bool
deriving DecidableEq, Repr

/-- Modelled from the spec: the token store behind `store.Mapper`, a map from
symbol to token. -/
abbrev TokenMapper := String → Option Token

/-- `tokenMapper.GetToken`: an error when the symbol is not registered. -/
def TokenMapper.GetToken (tm : TokenMapper) (symbol : String) : Except String Token :=
  match tm symbol with
  | none => .error ("token(" ++ symbol ++ ") not found")
  | some token => .ok token

/-- The value `int64(math.Pow10(n))`: exact for `0 ≤ n ≤ 18`, zero for a
negative exponent (the float is below one and is truncated); beyond 18 the
float exceeds the `int64` range and the conversion yields the smallest `int64`
on amd64. -/
def Pow10Int64 (n : Int) : Int :=
  if n < 0 then 0 else if n ≤ 18 then 10 ^ n.toNat else minInt64

/-! ## Library functions used by the handlers -/

/-- Functions the handlers call and that are defined outside the embedded files:
`strings.ToUpper`, `utils.TradeSymbol2Ccy` and `utils.CalBigNotional`. -/
structure Lib where
  ToUpper : String → String
  TradeSymbol2Ccy : String → String × String
  CalBigNotional : Int → Int → Int

/-! ## `plugins/tokens/freeze/handler.go` -/

/-- The type `base.MsgBase` of `FreezeMsg` and `UnfreezeMsg`. -/
structure MsgBase where
  From : AccAddress
  Symbol : String
  Amount : Int
deriving DecidableEq, Repr

/-- The function `handleUnfreezeToken`. -/
def handleUnfreezeToken (lib : Lib) (tokenMapper : TokenMapper) (accountMapper : AccountMapper)
    (msg : MsgBase) : Option (Result × AccountMapper) :=
  let unfreezeAmount := msg.Amount
  if unfreezeAmount ≤ 0 then
    some (ErrInsufficientCoins "unfreeze amount should be greater than 0", accountMapper)
  else
    let symbol := lib.ToUpper msg.Symbol
    match tokenMapper.GetToken symbol with
    | .error err => some (ErrInvalidCoins err, accountMapper)
    | .ok token =>
      let unfreezeAmount := wrap64 (Pow10Int64 token.Decimal * unfreezeAmount)
      match accountMapper.GetAccount msg.From with
      | none => none
      | some account =>
        let frozenAmount := account.FrozenCoins.AmountOf symbol
        if frozenAmount < unfreezeAmount then
          some (ErrInsufficientCoins "do not have enough token to unfreeze", accountMapper)
        else
          let account := { account with
            FrozenCoins := account.FrozenCoins.Minus64 [⟨symbol, frozenAmount⟩] }
          let accountMapper := accountMapper.SetAccount msg.From account
          match AddCoinsWith wrap64 accountMapper msg.From [⟨symbol, unfreezeAmount⟩] with
          | (accountMapper, some sdkError) => some (sdkError, accountMapper)
          | (accountMapper, none) => some ({}, accountMapper)

/-- The function `updateFrozenOfAccount`; the type assertion panics on a nil
account. -/
def updateFrozenOfAccount (accountMapper : AccountMapper) (address : AccAddress)
    (symbol : String) (frozenAmount : Int) : Option AccountMapper :=
  match accountMapper.GetAccount address with
  | none => none
  | some account =>
    some (accountMapper.SetAccount address
      { account with FrozenCoins := account.FrozenCoins.Plus64 [⟨symbol, frozenAmount⟩] })

/-- The function `handleFreezeToken`.  `updateFrozenOfAccount` runs before the
error of `SubtractCoins` is looked at. -/
def handleFreezeToken (lib : Lib) (tokenMapper : TokenMapper) (accountMapper : AccountMapper)
    (msg : MsgBase) : Option (Result × AccountMapper) :=
  let freezeAmount := msg.Amount
  if freezeAmount ≤ 0 then
    some (ErrInsufficientCoins "freeze amount should be greater than 0", accountMapper)
  else
    let symbol := lib.ToUpper msg.Symbol
    match tokenMapper.GetToken symbol with
    | .error err => some (ErrInvalidCoins err, accountMapper)
    | .ok token =>
      let freezeAmount := wrap64 (Pow10Int64 token.Decimal * freezeAmount)
      let coins := GetCoins accountMapper msg.From
      if coins.AmountOf symbol < freezeAmount then
        some (ErrInsufficientCoins "do not have enough token to freeze", accountMapper)
      else
        match SubtractCoinsWith wrap64 accountMapper msg.From [⟨symbol, freezeAmount⟩] with
        | (accountMapper, sdkError) =>
          match updateFrozenOfAccount accountMapper msg.From symbol freezeAmount with
          | none => none
          | some accountMapper =>
            match sdkError with
            | some sdkError => some (sdkError, accountMapper)
            | none => some ({}, accountMapper)

/-! ## `plugins/tokens/issue/handler.go` -/

/-- The type `IssueMsg`, with the fields the handler reads. -/
structure IssueMsg where
  From : AccAddress
  Name : String
  Symbol : String
  TotalSupply : Int
  Mintable : Bool
deriving DecidableEq, Repr

/-- The type `MintMsg`. -/
structure MintMsg where
  From : AccAddress
  Symbol : String
  Amount : Int
deriving DecidableEq, Repr

/-- The value `ctx.Value(baseapp.TxHashKey)`: absent, a value that is not a
string, or a string.  A Go string is a sequence of bytes, and the handler reads
the hash through `len` and a slice, which count bytes: the string is given by
its bytes. -/
inductive ContextValue where
  | absent
  | other
  | string (bytes : List UInt8)
deriving DecidableEq, Repr

/-- The Go string with the given bytes, as a text with one character per byte.
On ASCII bytes, such as the hexadecimal text of a transaction hash, it is the
text itself. -/
def ofBytes (bytes : List UInt8) : String := ⟨bytes.map fun b => Char.ofNat b.toNat⟩

/-- The parts of `common/types` and of the standard library the issue handlers
use and that are not among the source files: the constants
`TokenSymbolTxHashSuffixLen` and `TokenMaxTotalSupply`, the constructor
`common.NewToken`, which may reject its arguments, and `json.Marshal`, `none`
when it fails. -/
structure TokenLib where
  TokenSymbolTxHashSuffixLen : Nat
  TokenMaxTotalSupply : Int
  NewToken : String → String → Int → AccAddress → Bool → Except String Token
  Marshal : Token → Option String

namespace TokenMapper

/-- `tokenMapper.Exists`. -/
def Exists (tm : TokenMapper) (symbol : String) : Bool := (tm symbol).isSome

/-- Modelled from the spec: `tokenMapper.NewToken` persists the token under its
symbol; a symbol that is already registered is an error. -/
def NewToken (tm : TokenMapper) (token : Token) : Except String TokenMapper :=
  if (tm token.Symbol).isSome then .error "symbol already exists"
  else .ok fun s => if s = token.Symbol then some token else tm s

/-- Modelled from the spec: `tokenMapper.UpdateTotalSupply` rewrites the supply
of a registered token; an unknown symbol is an error. -/
def UpdateTotalSupply (tm : TokenMapper) (symbol : String) (supply : Int) :
    Except String TokenMapper :=
  match tm symbol with
  | none => .error "token does not exist"
  | some token =>
    .ok fun s => if s = symbol then some { token with TotalSupply := supply } else tm s

end TokenMapper

/-- `strconv.FormatInt(n, 10)`. -/
def FormatInt (n : Int) : String := toString n

/-- The symbol `handleIssueToken` issues under: the upper-cased symbol of the
message, a dash and `txHashStr[:n]`, the first `n` bytes of the transaction
hash. -/
def suffixedSymbol (lib : Lib) (n : Nat) (msgSymbol : String) (txHashStr : List UInt8) :
    String :=
  lib.ToUpper msgSymbol ++ "-" ++ ofBytes (txHashStr.take n)

/-- The function `handleIssueToken`: the result, the token store and the account
store it leaves.  `len(txHashStr)` is the number of bytes of the hash. -/
def handleIssueToken (lib : Lib) (tl : TokenLib) (txHash : ContextValue)
    (tokenMapper : TokenMapper) (accountMapper : AccountMapper) (msg : IssueMsg) :
    Option (Result × TokenMapper × AccountMapper) :=
  match txHash with
  | .string txHashStr =>
    if txHashStr.length ≥ tl.TokenSymbolTxHashSuffixLen then
      let symbol := suffixedSymbol lib tl.TokenSymbolTxHashSuffixLen msg.Symbol txHashStr
      if tokenMapper.Exists symbol then
        some (ErrInvalidCoins ("symbol(" ++ msg.Symbol ++ ") already exists"),
          tokenMapper, accountMapper)
      else
        match tl.NewToken msg.Name symbol msg.TotalSupply msg.From msg.Mintable with
        | .error err =>
          some (ErrInternal ("unable to create token struct: " ++ err),
            tokenMapper, accountMapper)
        | .ok token =>
          match tokenMapper.NewToken token with
          | .error err => some (ErrInvalidCoins err, tokenMapper, accountMapper)
          | .ok tokenMapper =>
            match AddCoinsWith wrap64 accountMapper token.Owner
                [⟨token.Symbol, token.TotalSupply⟩] with
            | (accountMapper, some sdkError) => some (sdkError, tokenMapper, accountMapper)
            | (accountMapper, none) =>
              match tl.Marshal token with
              | none => none
              | some serialized =>
                some ({ Data := serialized, Log := "Issued " ++ token.Symbol },
                  tokenMapper, accountMapper)
    else
      some (ErrInternal "unable to get the txHash from Context", tokenMapper, accountMapper)
  | _ => some (ErrInternal "unable to get the txHash from Context", tokenMapper, accountMapper)

/-- The function `handleMintToken`: the result, the token store and the account
store it leaves.  `token.IsOwner` compares the owner with the sender. -/
def handleMintToken (lib : Lib) (tl : TokenLib) (tokenMapper : TokenMapper)
    (accountMapper : AccountMapper) (msg : MintMsg) :
    Option (Result × TokenMapper × AccountMapper) :=
  let symbol := lib.ToUpper msg.Symbol
  match tokenMapper.GetToken symbol with
  | .error _ =>
    some (ErrInvalidCoins ("symbol(" ++ msg.Symbol ++ ") does not exist"),
      tokenMapper, accountMapper)
  | .ok token =>
    if !token.Mintable then
      some (ErrInvalidCoins ("token(" ++ msg.Symbol ++ ") cannot be minted"),
        tokenMapper, accountMapper)
    else if ¬ token.Owner = msg.From then
      some (ErrUnauthorized ("only the owner can mint token " ++ msg.Symbol),
        tokenMapper, accountMapper)
    else if msg.Amount > wrap64 (tl.TokenMaxTotalSupply - token.TotalSupply) then
      some (ErrInvalidCoins "mint amount is too large", tokenMapper, accountMapper)
    else
      let newTotalSupply := wrap64 (token.TotalSupply + msg.Amount)
      match tokenMapper.UpdateTotalSupply symbol newTotalSupply with
      | .error _ => some (ErrInternal "update total supply failed", tokenMapper, accountMapper)
      | .ok tokenMapper =>
        match AddCoinsWith wrap64 accountMapper token.Owner [⟨token.Symbol, msg.Amount⟩] with
        | (accountMapper, some sdkError) => some (sdkError, tokenMapper, accountMapper)
        | (accountMapper, none) =>
          some ({ Data := FormatInt newTotalSupply }, tokenMapper, accountMapper)

/-! ## `plugins/dex/list/msg.go` -/

/-- The type `list.Msg`. -/
structure ListMsg where
  From : AccAddress
  BaseAssetSymbol : String
  QuoteAssetSymbol : String
  InitPrice : Int
deriving DecidableEq, Repr

/-- The method `Msg.ValidateBasic`; `none` is the nil error.  `ValidateSymbol`
is `types.ValidateSymbol`, not among the source files: it returns the text of
its error, or `none`. -/
def ListMsg.ValidateBasic (ValidateSymbol : String → Option String) (msg : ListMsg) :
    Option Result :=
  match ValidateSymbol msg.BaseAssetSymbol with
  | some err => some (ErrInvalidCoins ("base token: " ++ err))
  | none =>
    match ValidateSymbol msg.QuoteAssetSymbol with
    | some err => some (ErrInvalidCoins ("quote token: " ++ err))
    | none =>
      if msg.InitPrice ≤ 0 then some (ErrInvalidCoins "price should be positive")
      else none

/-! ## `plugins/dex/order/handler.go` -/

/-- The constant `Side.BUY`. -/
def Side.BUY : Int := 1

/-- The constant `Side.SELL`. -/
def Side.SELL : Int := 2

/-- The type `NewOrderMsg`, with the fields the handlers read. -/
structure NewOrderMsg where
  Sender : AccAddress
  Id : String
  Symbol : String
  Side : Int
  Price : Int
  Quantity : Int
deriving DecidableEq, Repr

/-- The type `CancelOrderMsg`. -/
structure CancelOrderMsg where
  Sender : AccAddress
  RefId : String
deriving DecidableEq, Repr

/-- Modelled from the spec: `matcheng.OrderPart` is not among the source files;
per the data model an order part is `{id, leaves_qty, time}`. -/
structure OrderPart where
  Id : String
  LeavesQty : Int
  Time : Int
deriving DecidableEq, Repr

/-- The methods of the order `Keeper` the handlers call; the keeper is not among
the source files.  `K` is the keeper's state (order index and books).  A call
that returns an error leaves the keeper as it was. -/
structure KeeperOps (K : Type) where
  OrderExists : K → String → Option NewOrderMsg
  AddOrder : K → NewOrderMsg → Int → Except String K
  RemoveOrder : K → String → String → Int → Int → Except String (OrderPart × K)
  GetOrder : K → String → String → Int → Int → Except String OrderPart

/-- The parts of `sdk.Context` the handlers read. -/
structure Context where
  IsCheckTx : Bool
  BlockHeight : Int
deriving DecidableEq, Repr

/-- `sdk.Int.Int64`: panics when the value is not an `int64`. -/
def Int64 (x : Int) : Option Int := if isInt64 x then some x else none

/-- The function `updateLockedOfAccount`; the type assertion panics on a nil
account. -/
def updateLockedOfAccount (accountMapper : AccountMapper) (address : AccAddress)
    (symbol : String) (lockedAmount : Int) : Option AccountMapper :=
  match accountMapper.GetAccount address with
  | none => none
  | some account =>
    some (accountMapper.SetAccount address
      { account with LockedCoins := account.LockedCoins.Plus [⟨symbol, lockedAmount⟩] })

/-- The symbol and amount `handleNewOrder` locks for `msg`. -/
def lockOf (lib : Lib) (msg : NewOrderMsg) : String × Int :=
  let (tradeCcy, quoteCcy) := lib.TradeSymbol2Ccy msg.Symbol
  if msg.Side = Side.BUY then
    (lib.ToUpper quoteCcy, lib.CalBigNotional msg.Quantity msg.Price)
  else
    (lib.ToUpper tradeCcy, msg.Quantity)

/-- The function `handleNewOrder`: the result, the keeper and the account store
it leaves. -/
def handleNewOrder {K : Type} (lib : Lib) (ops : KeeperOps K) (ctx : Context) (keeper : K)
    (accountMapper : AccountMapper) (msg : NewOrderMsg) :
    Option (Result × K × AccountMapper) :=
  let ok := (ops.OrderExists keeper msg.Id).isSome
  if ctx.IsCheckTx ∧ ok then
    some (errResult CodeType.DuplicatedOrder
      ("Duplicated order [" ++ msg.Id ++ "] on symbol [" ++ msg.Symbol ++ "]"),
      keeper, accountMapper)
  else
    let symbolToLock := (lockOf lib msg).1
    let amountToLock := (lockOf lib msg).2
    let coins := GetCoins accountMapper msg.Sender
    match Int64 (coins.AmountOf symbolToLock) with
    | none => none
    | some have_ =>
      if have_ < amountToLock then
        some (ErrInsufficientCoins "do not have enough token to lock", keeper, accountMapper)
      else
        match SubtractCoinsWith id accountMapper msg.Sender [⟨symbolToLock, amountToLock⟩] with
        | (accountMapper, some sdkError) => some (sdkError, keeper, accountMapper)
        | (accountMapper, none) =>
          match updateLockedOfAccount accountMapper msg.Sender symbolToLock amountToLock with
          | none => none
          | some accountMapper =>
            if !ctx.IsCheckTx then
              match ops.AddOrder keeper msg ctx.BlockHeight with
              | .error err =>
                some (errResult CodeType.FailInsertOrder err, keeper, accountMapper)
              | .ok keeper => some ({}, keeper, accountMapper)
            else
              some ({}, keeper, accountMapper)

/-- The symbol and amount `handleCancelOrder` unlocks for the order `origOrd`
whose resting part has `leaves` left. -/
def unlockOf (lib : Lib) (origOrd : NewOrderMsg) (leaves : Int) : String × Int :=
  let (tradeCcy, quoteCcy) := lib.TradeSymbol2Ccy origOrd.Symbol
  if origOrd.Side = Side.BUY then
    (lib.ToUpper quoteCcy, lib.CalBigNotional origOrd.Price leaves)
  else
    (lib.ToUpper tradeCcy, leaves)

/-- The order part `handleCancelOrder` obtains for `origOrd` and the keeper it
leaves: in deliver mode `RemoveOrder`, in check mode `GetOrder`, which reads
only. -/
def locateOrder {K : Type} (ops : KeeperOps K) (ctx : Context) (keeper : K)
    (origOrd : NewOrderMsg) : Except String (OrderPart × K) :=
  if !ctx.IsCheckTx then
    ops.RemoveOrder keeper origOrd.Id origOrd.Symbol origOrd.Side origOrd.Price
  else
    (ops.GetOrder keeper origOrd.Id origOrd.Symbol origOrd.Side origOrd.Price).map
      fun ord => (ord, keeper)

/-- The function `handleCancelOrder`: the result, the keeper and the account
store it leaves. -/
def handleCancelOrder {K : Type} (lib : Lib) (ops : KeeperOps K) (ctx : Context) (keeper : K)
    (accountMapper : AccountMapper) (msg : CancelOrderMsg) :
    Option (Result × K × AccountMapper) :=
  match ops.OrderExists keeper msg.RefId with
  | none =>
    some (errResult CodeType.FailLocateOrderToCancel
      ("Failed to find order [" ++ msg.RefId ++ "]"), keeper, accountMapper)
  | some origOrd =>
    if ¬ msg.Sender = origOrd.Sender then
      some (errResult CodeType.FailLocateOrderToCancel
        ("Order [" ++ msg.RefId ++ "] does not belong to transaction sender"),
        keeper, accountMapper)
    else
      match locateOrder ops ctx keeper origOrd with
      | .error err =>
        some (errResult CodeType.FailLocateOrderToCancel err, keeper, accountMapper)
      | .ok (ord, keeper) =>
        let symbolToUnlock := (unlockOf lib origOrd ord.LeavesQty).1
        let unlockAmount := (unlockOf lib origOrd ord.LeavesQty).2
        match accountMapper.GetAccount msg.Sender with
        | none => none
        | some account =>
          match Int64 (account.LockedCoins.AmountOf symbolToUnlock) with
          | none => none
          | some lockedAmount =>
            if lockedAmount < unlockAmount then
              some (ErrInsufficientCoins "do not have enough token to unlock",
                keeper, accountMapper)
            else
              match AddCoinsWith id accountMapper msg.Sender [⟨symbolToUnlock, unlockAmount⟩] with
              | (accountMapper, some sdkError) => some (sdkError, keeper, accountMapper)
              | (accountMapper, none) =>
                match updateLockedOfAccount accountMapper msg.Sender symbolToUnlock
                    (wrap64 (-unlockAmount)) with
                | none => none
                | some accountMapper => some ({}, keeper, accountMapper)

/-- The available balance of `symbol` of the account at `addr`. -/
def availableOf (am : AccountMapper) (addr : AccAddress) (symbol : String) : Int :=
  (GetCoins am addr).AmountOf symbol

/-- The locked balance of `symbol` of the account at `addr`, zero for a nil
account. -/
def lockedOf (am : AccountMapper) (addr : AccAddress) (symbol : String) : Int :=
  match am.GetAccount addr with
  | none => 0
  | some acc => acc.LockedCoins.AmountOf symbol

/-- The frozen balance of `symbol` of the account at `addr`, zero for a nil
account. -/
def frozenOf (am : AccountMapper) (addr : AccAddress) (symbol : String) : Int :=
  match am.GetAccount addr with
  | none => 0
  | some acc => acc.FrozenCoins.AmountOf symbol

/-- The store `am2` is `am` after `amount` of `symbol` has moved from the
available to the locked bucket of `addr`; no other account has changed. -/
def movedToLocked (am am2 : AccountMapper) (addr : AccAddress) (symbol : String)
    (amount : Int) : Prop :=
  (∀ sym, availableOf am2 addr sym =
      availableOf am addr sym - (if symbol = sym then amount else 0)) ∧
  (∀ sym, lockedOf am2 addr sym = lockedOf am addr sym + (if symbol = sym then amount else 0)) ∧
  (∀ a, a ≠ addr → am2 a = am a)

/-! ## `app/app.go`: `BinanceChain.EndBlocker` -/

/-- The calls `EndBlocker` makes into the other components, in program order. -/
inductive Step where
  | MatchAndAllocateAllForPublish
  | MatchAndAllocateAll
  | IcoEndBlockAsync
  | DexEndBreatheBlock
  | ParamEndBreatheBlock
  | AwaitIcoDone
  | DistributeFee
  | Publish
  | ClearOrderChanges
  | ClearRoundFee
  | GovEndBlocker
  | StakeEndBlocker
deriving DecidableEq, Repr

/-- What `EndBlocker` reads: the time of the previous block (from the check
state), the header of the block, the publication configuration and the
`pub.IsLive` flag.  Times are Unix seconds. -/
structure EndBlockInput where
  lastBlockTime : Int
  blockTime : Int
  height : Int
  ShouldPublishAny : Bool
  IsLive : Bool
  FromHeightInclusive : Int
deriving DecidableEq, Repr

/-- Modelled from the spec: `utils.SameDayInUTC` is not among the source files;
two instants are on the same day when their UTC dates agree. -/
def SameDayInUTC (first second : Int) : Bool := decide (first / 86400 = second / 86400)

/-- The function `BinanceChain.EndBlocker`, as the sequence of calls it makes.
The test `height%1000 != 0` is a test of divisibility, the same under the
truncated remainder of Go and the remainder used here. -/
def EndBlocker (req : EndBlockInput) : List Step :=
  let isBreatheBlock := !SameDayInUTC req.lastBlockTime req.blockTime
  let matching :=
    if req.height % 1000 ≠ 0 then
      if req.ShouldPublishAny && req.IsLive then [Step.MatchAndAllocateAllForPublish]
      else [Step.MatchAndAllocateAll]
    else
      [Step.IcoEndBlockAsync, Step.DexEndBreatheBlock, Step.ParamEndBreatheBlock,
        Step.AwaitIcoDone]
  let blockFee := [Step.DistributeFee]
  let publication :=
    if req.ShouldPublishAny && req.IsLive then
      (if req.height ≥ req.FromHeightInclusive then [Step.Publish] else []) ++
        [Step.ClearOrderChanges, Step.ClearRoundFee]
    else []
  let tags := [Step.GovEndBlocker]
  let validatorUpdates := if isBreatheBlock then [Step.StakeEndBlocker] else []
  matching ++ blockFee ++ publication ++ tags ++ validatorUpdates

/-- The block runs the breathe-block housekeeping. -/
def runsHousekeeping (req : EndBlockInput) : Bool :=
  (EndBlocker req).contains Step.DexEndBreatheBlock

/-- The block runs the matching of all pairs. -/
def runsMatching (req : EndBlockInput) : Bool :=
  (EndBlocker req).contains Step.MatchAndAllocateAll ||
    (EndBlocker req).contains Step.MatchAndAllocateAllForPublish

/-- The constant `BREATHE_INTERVAL` of the spec, the 1000 of the height test. -/
def BREATHE_INTERVAL : Int := 1000

/-- The breathe-block condition in the words of the spec: the quotient of the
height by the interval changed since the previous height, or the UTC date
changed since the previous block. -/
def specBreatheBlock (req : EndBlockInput) : Bool :=
  decide (req.height / BREATHE_INTERVAL ≠ (req.height - 1) / BREATHE_INTERVAL) ||
    decide (req.blockTime / 86400 ≠ req.lastBlockTime / 86400)

/-- The publication condition in the words of the spec: publication is enabled
and the height has reached `from_height_inclusive`. -/
def specPublishes (req : EndBlockInput) : Bool :=
  req.ShouldPublishAny && decide (req.height ≥ req.FromHeightInclusive)

/-- The effect on a state `S` of each call `EndBlocker` makes. -/
structure BlockOps (S : Type) where
  run : Step → S → S

/-- The state `EndBlocker` leaves: the calls it makes, applied in program
order. -/
def EndBlockerRun {S : Type} (ops : BlockOps S) (req : EndBlockInput) (s : S) : S :=
  (EndBlocker req).foldl (fun s step => ops.run step s) s

/-- The calls of `EndBlocker` that do not touch an order book: fee distribution,
publication, the clearing of the round buffers and the governance and staking
end blockers. -/
def Step.leavesBooks : Step → Bool
  | Step.DistributeFee => true
  | Step.Publish => true
  | Step.ClearOrderChanges => true
  | Step.ClearRoundFee => true
  | Step.GovEndBlocker => true
  | Step.StakeEndBlocker => true
  | _ => false

/-- Modelled from the spec: the two sides of the order book of a pair, as the
prices of the resting orders. -/
structure Book where
  bids : List Int
  asks : List Int
deriving DecidableEq, Repr

/-- No bid reaches an ask: `best_bid < best_ask`, or one side is empty. -/
def Book.uncrossed (b : Book) : Bool :=
  b.bids.all fun bid => b.asks.all fun ask => decide (bid < ask)

/-- A matching round that fills every bid that reaches an ask. -/
def Book.matchAll (b : Book) : Book :=
  { b with bids := b.bids.filter fun bid => b.asks.all fun ask => decide (bid < ask) }

/-- Block operations on the books of all pairs where matching uncrosses every
book and the housekeeping of a breathe block finds nothing to expire. -/
def bookOps : BlockOps (List Book) where
  run
    | Step.MatchAndAllocateAll, s => s.map Book.matchAll
    | Step.MatchAndAllocateAllForPublish, s => s.map Book.matchAll
    | _, s => s

/-! ## Concrete instances for evaluation -/

/-- ASCII upper-casing, the action of `strings.ToUpper` on token symbols. -/
def asciiUpper (s : String) : String :=
  ⟨s.data.map fun c => if 97 ≤ c.toNat ∧ c.toNat ≤ 122 then Char.ofNat (c.toNat - 32) else c⟩

/-- The part of a character list before the first `_`. -/
def beforeUnderscore : List Char → List Char
  | [] => []
  | c :: cs => if c = '_' then [] else c :: beforeUnderscore cs

/-- The part of a character list after the first `_`. -/
def afterUnderscore : List Char → List Char
  | [] => []
  | c :: cs => if c = '_' then cs else afterUnderscore cs

/-- Modelled from the spec: `utils.CalBigNotional` is not among the source files;
per the numeric conventions it is `qty × price / 10^8` with half-down rounding:
the nearest integer, a tie going down. -/
def CalBigNotional (qty price : Int) : Int := (2 * (qty * price) + 10 ^ 8 - 1) / (2 * 10 ^ 8)

/-- The BUY lock amount as the order keeper section of the spec words it:
`ceil(quantity × price / 10^8)`. -/
def ceilNotional (q p : Int) : Int := (q * p + 10 ^ 8 - 1) / 10 ^ 8

/-- Modelled from the spec: `utils.TradeSymbol2Ccy` is not among the source
files; a pair symbol is `BASE_QUOTE`. -/
def TradeSymbol2Ccy (symbol : String) : String × String :=
  (⟨beforeUnderscore symbol.data⟩, ⟨afterUnderscore symbol.data⟩)

/-- The library instance used to evaluate the handlers. -/
def stdLib : Lib :=
  { ToUpper := asciiUpper, TradeSymbol2Ccy := TradeSymbol2Ccy, CalBigNotional := CalBigNotional }

/-- A token store holding `BNB` with no decimals. -/
def tokensBNB : TokenMapper := fun s =>
  if s = "BNB" then some ⟨"Binance Coin", "BNB", 1000, "owner", 0, false⟩ else none

/-- An account store where `alice` holds 5 frozen `BNB` and nothing else. -/
def aliceFrozen5 : AccountMapper := fun a =>
  if a = "alice" then some { FrozenCoins := [⟨"BNB", 5⟩] } else none

/-- Modelled from the spec: a live order of the order keeper, the message it was
placed with, the quantity left and the height it arrived at. -/
structure LiveOrder where
  Msg : NewOrderMsg
  LeavesQty : Int
  Height : Int
deriving DecidableEq, Repr

/-- Modelled from the spec: a listed trading pair with its tick and lot size. -/
structure TradingPair where
  Symbol : String
  TickSize : Int
  LotSize : Int
deriving DecidableEq, Repr

/-- Modelled from the spec: the state of the order keeper, the listed pairs and
the live orders in arrival order. -/
structure SpecKeeper where
  Pairs : List TradingPair
  Orders : List LiveOrder
deriving DecidableEq, Repr

/-- The live order with the given id, if any. -/
def SpecKeeper.find (k : SpecKeeper) (id : String) : Option LiveOrder :=
  k.Orders.find? fun o => decide (o.Msg.Id = id)

/-- Modelled from the spec: the order keeper of section 4.C.  `AddOrder` rejects
an id that exists, a pair that is not listed, a price that is not a multiple of
the tick size and a quantity that is not a multiple of the lot size, and else
appends the order; `RemoveOrder` looks the order up by id and drops it. -/
def specOps : KeeperOps SpecKeeper where
  OrderExists k id := (k.find id).map fun o => o.Msg
  AddOrder k msg height :=
    if (k.find msg.Id).isSome then .error "DuplicatedOrder"
    else
      match k.Pairs.find? fun p => decide (p.Symbol = msg.Symbol) with
      | none => .error "pair is not listed"
      | some pair =>
        if msg.Price % pair.TickSize ≠ 0 then .error "price is not a multiple of tick size"
        else if msg.Quantity % pair.LotSize ≠ 0 then
          .error "quantity is not a multiple of lot size"
        else .ok { k with Orders := k.Orders ++ [⟨msg, msg.Quantity, height⟩] }
  RemoveOrder k id _ _ _ :=
    match k.find id with
    | none => .error "FailLocateOrderToCancel"
    | some o =>
      .ok (⟨id, o.LeavesQty, o.Height⟩,
        { k with Orders := k.Orders.filter fun o => decide (o.Msg.Id ≠ id) })
  GetOrder k id _ _ _ :=
    match k.find id with
    | none => .error "FailLocateOrderToCancel"
    | some o => .ok ⟨id, o.LeavesQty, o.Height⟩

/-- The order book holding one resting BUY order `o1` of `alice` for 5 `BTC` at
price `10^8` on the listed pair `BTC_USD`. -/
def bookO1 : SpecKeeper :=
  { Pairs := [⟨"BTC_USD", 1, 1⟩],
    Orders := [⟨⟨"alice", "o1", "BTC_USD", Side.BUY, 100000000, 5⟩, 5, 1⟩] }

/-- The order book with the pair `BTC_USD` listed and no order. -/
def bookEmpty : SpecKeeper := { Pairs := [⟨"BTC_USD", 1, 1⟩], Orders := [] }

/-- The deliver-mode context at height 2. -/
def deliverCtx : Context := ⟨false, 2⟩

/-- The check-mode context at height 2. -/
def checkCtx : Context := ⟨true, 2⟩

/-- An account store where `alice` holds 10 available `USD` and nothing else. -/
def aliceUSD10 : AccountMapper := fun a =>
  if a = "alice" then some { Coins := [⟨"USD", 10⟩] } else none

/-- An account store where `alice` holds 10 available and 5 locked `USD`. -/
def aliceLocked5 : AccountMapper := fun a =>
  if a = "alice" then some { Coins := [⟨"USD", 10⟩], LockedCoins := [⟨"USD", 5⟩] } else none

/-- An account store where `alice` has an account that holds nothing. -/
def aliceEmpty : AccountMapper := fun a =>
  if a = "alice" then some {} else none

/-- A token store holding `BTC` with 8 decimals. -/
def tokensBTC8 : TokenMapper := fun s =>
  if s = "BTC" then some ⟨"Bitcoin", "BTC", 1000, "owner", 8, false⟩ else none

/-- A token store holding the mintable token `TKN-ABC` of `owner` with supply
1000. -/
def tokensTKN : TokenMapper := fun s =>
  if s = "TKN-ABC" then some ⟨"Token", "TKN-ABC", 1000, "owner", 8, true⟩ else none

/-- An account store where `owner` has an account that holds nothing. -/
def ownerEmpty : AccountMapper := fun a =>
  if a = "owner" then some {} else none

/-- Modelled from the spec: `common.NewToken` is not among the source files.  Per
the token of the data model and the token registry, a token has `decimals` in
`[0, 8]`, a total supply in `[1, 9·10^18]` that fits a signed 64-bit integer
scaled by `10^decimals`, and the credit of an issue, which the handler reads
from the token as `token.TotalSupply.ToInt64()`, is
`total_supply × 10^decimals`: the token holds that scaled supply.  The issue
message carries no decimals; they are the parameter `decimals`.  The
constructor fails when the symbol is empty or the supply is out of range. -/
def specNewToken (decimals : Nat) (name symbol : String) (totalSupply : Int)
    (owner : AccAddress) (mintable : Bool) : Except String Token :=
  if symbol = "" then .error "token symbol cannot be empty"
  else if totalSupply < 1 ∨ totalSupply > 9000000000000000000 ∨
      totalSupply * 10 ^ decimals > maxInt64 then
    .error "total supply is out of range"
  else .ok ⟨name, symbol, totalSupply * 10 ^ decimals, owner, decimals, mintable⟩

/-- The token library used to evaluate the issue handlers: a suffix of 3 bytes,
the ceiling `9·10^18`, tokens of 8 decimals, and a stand-in for the JSON
encoding. -/
def specTokenLib : TokenLib :=
  { TokenSymbolTxHashSuffixLen := 3
    TokenMaxTotalSupply := 9000000000000000000
    NewToken := specNewToken 8
    Marshal := fun token => some (token.Name ++ ":" ++ token.Symbol) }

/-- The bytes of the hash text `ABCDEF`. -/
def hashABCDEF : List UInt8 := [65, 66, 67, 68, 69, 70]

/-- The empty token store. -/
def tokensNone : TokenMapper := fun _ => none

/-- The library with the spec-modelled `CalBigNotional` and any `ToUpper` and
`TradeSymbol2Ccy`. -/
def specLib (ToUpper : String → String) (TradeSymbol2Ccy : String → String × String) : Lib :=
  { ToUpper := ToUpper, TradeSymbol2Ccy := TradeSymbol2Ccy, CalBigNotional := CalBigNotional }

/-! ## Lemmas on coins and stores -/

theorem Coins.amountOf_go (coinA : Coin) (as : Coins) (recA : Coins → Coins) (d : String)
    (hrec : ∀ b, AmountOf (recA b) d = AmountOf as d + AmountOf b d) (b : Coins) :
    AmountOf (PlusWith.go id coinA as recA b) d = AmountOf (coinA :: as) d + AmountOf b d := by
  induction b with
  | nil => simp [PlusWith.go, AmountOf]
  | cons coinB bs ih =>
    simp only [PlusWith.go, id]
    split_ifs with h1 h2 h3
    · simp only [AmountOf, hrec]; ring
    · rw [hrec]; simp only [AmountOf]
      by_cases hd : coinA.Denom = d
      · have hd2 : coinB.Denom = d := h2 ▸ hd
        simp only [hd, hd2, if_true]; linarith
      · have hd2 : ¬ coinB.Denom = d := h2 ▸ hd
        simp only [hd, hd2, if_false]; ring
    · simp only [AmountOf, hrec]
      by_cases hd : coinA.Denom = d
      · have hd2 : coinB.Denom = d := h2 ▸ hd
        simp only [hd, hd2, if_true]; ring
      · have hd2 : ¬ coinB.Denom = d := h2 ▸ hd
        simp only [hd, hd2, if_false]; ring
    · simp only [AmountOf] at ih ⊢; rw [ih]; ring

/-- `AmountOf` is additive over `Plus`. -/
theorem Coins.amountOf_Plus (a b : Coins) (d : String) :
    AmountOf (Plus a b) d = AmountOf a d + AmountOf b d := by
  unfold Plus
  induction a generalizing b with
  | nil => simp [PlusWith, AmountOf]
  | cons coinA as ih =>
    simp only [PlusWith]
    exact Coins.amountOf_go coinA as _ d (fun b => ih b) b

/-- `AmountOf` over `Minus` of a single coin. -/
theorem Coins.amountOf_Minus_single (a : Coins) (sym d : String) (x : Int) :
    AmountOf (Minus a [⟨sym, x⟩]) d = AmountOf a d - (if sym = d then x else 0) := by
  have h := Coins.amountOf_Plus a [⟨sym, -x⟩] d
  simp only [Minus, MinusWith, NegativeWith, List.map, id, Plus] at h ⊢
  rw [h]; simp only [AmountOf]
  split_ifs <;> ring

/-- `AmountOf` over `Plus` of a single coin. -/
theorem Coins.amountOf_Plus_single (a : Coins) (sym d : String) (x : Int) :
    AmountOf (Plus a [⟨sym, x⟩]) d = AmountOf a d + (if sym = d then x else 0) := by
  rw [Coins.amountOf_Plus]; simp only [AmountOf]; ring

theorem wrap64_of_isInt64 (x : Int) (h : isInt64 x) : wrap64 x = x := by
  unfold isInt64 minInt64 maxInt64 at h
  unfold wrap64
  omega

theorem SubtractCoinsWith_error (norm : Int → Int) (am : AccountMapper) (addr : AccAddress)
    (amt : Coins) (e : Result) (h : (SubtractCoinsWith norm am addr amt).2 = some e) :
    (SubtractCoinsWith norm am addr amt).1 = am ∧ e.Code = CodeType.InsufficientCoins := by
  unfold SubtractCoinsWith at h ⊢
  dsimp only at h ⊢
  by_cases hneg : (!(Coins.MinusWith norm (GetCoins am addr) amt).IsNotNegative) = true
  · rw [if_pos hneg] at h ⊢
    have he : e = ErrInsufficientCoins "insufficient coins" := (Option.some.inj h).symm
    subst he
    exact ⟨rfl, rfl⟩
  · rw [if_neg hneg] at h
    cases h

theorem SubtractCoinsWith_ok (norm : Int → Int) (am : AccountMapper) (addr : AccAddress)
    (amt : Coins) (h : (SubtractCoinsWith norm am addr amt).2 = none) :
    (SubtractCoinsWith norm am addr amt).1 =
      setCoins am addr (Coins.MinusWith norm (GetCoins am addr) amt) := by
  unfold SubtractCoinsWith at h ⊢
  dsimp only at h ⊢
  by_cases hneg : (!(Coins.MinusWith norm (GetCoins am addr) amt).IsNotNegative) = true
  · rw [if_pos hneg] at h
    cases h
  · rw [if_neg hneg]

theorem AddCoinsWith_error (norm : Int → Int) (am : AccountMapper) (addr : AccAddress)
    (amt : Coins) (e : Result) (h : (AddCoinsWith norm am addr amt).2 = some e) :
    (AddCoinsWith norm am addr amt).1 = am ∧ e.Code = CodeType.InsufficientCoins := by
  unfold AddCoinsWith at h ⊢
  dsimp only at h ⊢
  by_cases hneg : (!(Coins.PlusWith norm (GetCoins am addr) amt).IsNotNegative) = true
  · rw [if_pos hneg] at h ⊢
    have he : e = ErrInsufficientCoins "insufficient coins" := (Option.some.inj h).symm
    subst he
    exact ⟨rfl, rfl⟩
  · rw [if_neg hneg] at h
    cases h

theorem AddCoinsWith_ok (norm : Int → Int) (am : AccountMapper) (addr : AccAddress)
    (amt : Coins) (h : (AddCoinsWith norm am addr amt).2 = none) :
    (AddCoinsWith norm am addr amt).1 =
      setCoins am addr (Coins.PlusWith norm (GetCoins am addr) amt) := by
  unfold AddCoinsWith at h ⊢
  dsimp only at h ⊢
  by_cases hneg : (!(Coins.PlusWith norm (GetCoins am addr) amt).IsNotNegative) = true
  · rw [if_pos hneg] at h
    cases h
  · rw [if_neg hneg]

theorem availableOf_setCoins (am : AccountMapper) (addr : AccAddress) (cs : Coins)
    (sym : String) : availableOf (setCoins am addr cs) addr sym = cs.AmountOf sym := by
  unfold availableOf GetCoins setCoins AccountMapper.GetAccount AccountMapper.SetAccount
  cases h : am addr <;> simp

theorem lockedOf_setCoins (am : AccountMapper) (addr : AccAddress) (cs : Coins)
    (sym : String) : lockedOf (setCoins am addr cs) addr sym = lockedOf am addr sym := by
  unfold lockedOf setCoins AccountMapper.GetAccount AccountMapper.SetAccount
  cases h : am addr <;> simp [Coins.AmountOf]

theorem setCoins_isSome (am : AccountMapper) (addr : AccAddress) (cs : Coins) :
    ∃ acc, (setCoins am addr cs).GetAccount addr = some acc := by
  unfold setCoins AccountMapper.GetAccount AccountMapper.SetAccount
  cases h : am addr <;> simp

theorem updateLockedOfAccount_effect (am am2 : AccountMapper) (addr : AccAddress)
    (symbol : String) (x : Int) (h : updateLockedOfAccount am addr symbol x = some am2)
    (sym : String) :
    lockedOf am2 addr sym = lockedOf am addr sym + (if symbol = sym then x else 0) ∧
      availableOf am2 addr sym = availableOf am addr sym := by
  unfold updateLockedOfAccount at h
  unfold lockedOf availableOf GetCoins
  cases hacc : am.GetAccount addr with
  | none => simp [hacc] at h
  | some acc =>
    simp only [hacc, Option.some.injEq] at h
    subst h
    simp [AccountMapper.GetAccount, AccountMapper.SetAccount, Coins.amountOf_Plus_single]

/-! ## Unfreeze -/

/-- C1 (code defect): `handleUnfreezeToken` subtracts the whole frozen balance
`frozenAmount` from the frozen bucket instead of the amount unfrozen.  With 5
frozen `BNB` (no decimals) and an unfreeze of 1, the handler succeeds, the frozen
bucket falls from 5 to 0 and the available bucket rises from 0 to 1. -/
theorem handleUnfreezeToken_empties_frozen_bucket :
    frozenOf aliceFrozen5 "alice" "BNB" = 5 ∧ availableOf aliceFrozen5 "alice" "BNB" = 0 ∧
    (handleUnfreezeToken stdLib tokensBNB aliceFrozen5 ⟨"alice", "bnb", 1⟩).map
      (fun r => (r.1.Code, frozenOf r.2 "alice" "BNB", availableOf r.2 "alice" "BNB")) =
      some (CodeType.OK, 0, 1) := by
  refine ⟨?_, ?_, ?_⟩ <;> decide

/-! ## End of block -/

/-- C3 (code defect): the branch of `EndBlocker` between matching and housekeeping
tests `height % 1000` alone.  At height 5 with the block time on the UTC day
after the previous block, the flag `isBreatheBlock` is set (the staking end
blocker runs) and the spec condition holds, yet the block runs matching and no
housekeeping. -/
theorem EndBlocker_day_change_runs_matching :
    specBreatheBlock ⟨86399, 86400, 5, false, false, 0⟩ = true ∧
    EndBlocker ⟨86399, 86400, 5, false, false, 0⟩ =
      [Step.MatchAndAllocateAll, Step.DistributeFee, Step.GovEndBlocker,
        Step.StakeEndBlocker] ∧
    runsHousekeeping ⟨86399, 86400, 5, false, false, 0⟩ = false ∧
    runsMatching ⟨86399, 86400, 5, false, false, 0⟩ = true := by
  refine ⟨?_, ?_, ?_, ?_⟩ <;> decide

/-! ## New order -/

theorem setCoins_other (am : AccountMapper) (addr : AccAddress) (cs : Coins) (a : AccAddress)
    (h : a ≠ addr) : setCoins am addr cs a = am a := by
  unfold setCoins AccountMapper.GetAccount AccountMapper.SetAccount
  cases am addr <;> simp [h]

theorem updateLockedOfAccount_other (am am2 : AccountMapper) (addr : AccAddress)
    (symbol : String) (x : Int) (h : updateLockedOfAccount am addr symbol x = some am2)
    (a : AccAddress) (ha : a ≠ addr) : am2 a = am a := by
  unfold updateLockedOfAccount at h
  cases hacc : am.GetAccount addr with
  | none => simp [hacc] at h
  | some acc =>
    simp only [hacc, Option.some.injEq] at h
    subst h
    simp [AccountMapper.SetAccount, ha]

/-- Every way `handleNewOrder` returns. -/
theorem handleNewOrder_inv {K : Type} (lib : Lib) (ops : KeeperOps K) (ctx : Context)
    (keeper : K) (am : AccountMapper) (msg : NewOrderMsg) (r : Result × K × AccountMapper)
    (hr : handleNewOrder lib ops ctx keeper am msg = some r) :
    (∃ log, (ctx.IsCheckTx = true ∧ (ops.OrderExists keeper msg.Id).isSome = true) ∧
      r = (errResult CodeType.DuplicatedOrder log, keeper, am)) ∨
    (¬ (ctx.IsCheckTx = true ∧ (ops.OrderExists keeper msg.Id).isSome = true) ∧
      ((∃ e, e.Code = CodeType.InsufficientCoins ∧ r = (e, keeper, am)) ∨
       (∃ am2, movedToLocked am am2 msg.Sender (lockOf lib msg).1 (lockOf lib msg).2 ∧
          availableOf am msg.Sender (lockOf lib msg).1 ≥ (lockOf lib msg).2 ∧
          ((ctx.IsCheckTx = false ∧ ∃ err, ops.AddOrder keeper msg ctx.BlockHeight = .error err ∧
              r = (errResult CodeType.FailInsertOrder err, keeper, am2)) ∨
           (ctx.IsCheckTx = false ∧ ∃ k2, ops.AddOrder keeper msg ctx.BlockHeight = .ok k2 ∧
              r = ({}, k2, am2)) ∨
           (ctx.IsCheckTx = true ∧ r = ({}, keeper, am2)))))) := by
  unfold handleNewOrder at hr
  simp only at hr
  by_cases hdup : ctx.IsCheckTx = true ∧ (ops.OrderExists keeper msg.Id).isSome = true
  · rw [if_pos hdup] at hr
    left
    exact ⟨_, hdup, (Option.some.inj hr).symm⟩
  · rw [if_neg hdup] at hr
    right
    refine ⟨hdup, ?_⟩
    cases h64 : Int64 ((GetCoins am msg.Sender).AmountOf (lockOf lib msg).1) with
    | none => simp [h64] at hr
    | some v =>
      have hv : v = availableOf am msg.Sender (lockOf lib msg).1 := by
        unfold Int64 at h64
        split_ifs at h64
        exact (Option.some.inj h64).symm
      simp only [h64] at hr
      by_cases hlt : v < (lockOf lib msg).2
      · rw [if_pos hlt] at hr
        left
        exact ⟨_, rfl, (Option.some.inj hr).symm⟩
      · rw [if_neg hlt] at hr
        cases hsub : SubtractCoinsWith id am msg.Sender
            [⟨(lockOf lib msg).1, (lockOf lib msg).2⟩] with
        | mk am1 oe =>
          cases oe with
          | some e =>
            simp only [hsub] at hr
            have he := SubtractCoinsWith_error id am msg.Sender _ e (by rw [hsub])
            rw [hsub] at he
            left
            refine ⟨e, he.2, ?_⟩
            have h1 : am1 = am := he.1
            subst h1
            exact (Option.some.inj hr).symm
          | none =>
            simp only [hsub] at hr
            have hok := SubtractCoinsWith_ok id am msg.Sender _ (by rw [hsub])
            rw [hsub] at hok
            have h1 : am1 = setCoins am msg.Sender
                (Coins.Minus (GetCoins am msg.Sender)
                  [⟨(lockOf lib msg).1, (lockOf lib msg).2⟩]) := hok
            cases hupd : updateLockedOfAccount am1 msg.Sender (lockOf lib msg).1
                (lockOf lib msg).2 with
            | none => simp [hupd] at hr
            | some am2 =>
              simp only [hupd] at hr
              right
              have hmoved : movedToLocked am am2 msg.Sender (lockOf lib msg).1
                  (lockOf lib msg).2 := by
                refine ⟨fun sym => ?_, fun sym => ?_, fun a ha => ?_⟩
                · rw [(updateLockedOfAccount_effect am1 am2 _ _ _ hupd sym).2, h1,
                    availableOf_setCoins, Coins.amountOf_Minus_single]
                  rfl
                · rw [(updateLockedOfAccount_effect am1 am2 _ _ _ hupd sym).1, h1,
                    lockedOf_setCoins]
                · rw [updateLockedOfAccount_other am1 am2 _ _ _ hupd a ha, h1,
                    setCoins_other _ _ _ _ ha]
              refine ⟨am2, hmoved, by rw [← hv]; exact not_lt.mp hlt, ?_⟩
              cases hchk : ctx.IsCheckTx with
              | true =>
                simp only [hchk] at hr
                right; right
                exact ⟨rfl, (Option.some.inj hr).symm⟩
              | false =>
                simp only [hchk] at hr
                cases hadd : ops.AddOrder keeper msg ctx.BlockHeight with
                | error err =>
                  simp only [hadd] at hr
                  left
                  exact ⟨rfl, err, rfl, (Option.some.inj hr).symm⟩
                | ok k2 =>
                  simp only [hadd] at hr
                  right; left
                  exact ⟨rfl, k2, rfl, (Option.some.inj hr).symm⟩

/-- C2 (counterexample): in deliver mode the id `o1` exists in the keeper, and
`handleNewOrder` answers a second order `o1` of a sender without funds with
`InsufficientCoins`, not `DuplicatedOrder`. -/
theorem handleNewOrder_deliver_duplicate_not_DuplicatedOrder :
    (specOps.OrderExists bookO1 "o1").isSome = true ∧
    (handleNewOrder stdLib specOps deliverCtx bookO1 aliceEmpty
      ⟨"alice", "o1", "BTC_USD", Side.BUY, 100000000, 5⟩).map (fun r => r.1.Code) =
      some CodeType.InsufficientCoins := by
  refine ⟨?_, ?_⟩ <;> decide

/-- C2 (amended): `handleNewOrder` tests the id in check mode only.  In check
mode an order whose id exists is answered `DuplicatedOrder` with the keeper and
the account store as they were; and whenever the handler answers
`DuplicatedOrder`, the call is in check mode and the id exists. -/
theorem handleNewOrder_DuplicatedOrder_check_mode {K : Type} (lib : Lib) (ops : KeeperOps K)
    (ctx : Context) (keeper : K) (am : AccountMapper) (msg : NewOrderMsg) :
    (ctx.IsCheckTx = true → (ops.OrderExists keeper msg.Id).isSome = true →
      ∃ log, handleNewOrder lib ops ctx keeper am msg =
        some (errResult CodeType.DuplicatedOrder log, keeper, am)) ∧
    (∀ r, handleNewOrder lib ops ctx keeper am msg = some r →
      r.1.Code = CodeType.DuplicatedOrder →
      ctx.IsCheckTx = true ∧ (ops.OrderExists keeper msg.Id).isSome = true) := by
  constructor
  · intro hc hex
    refine ⟨"Duplicated order [" ++ msg.Id ++ "] on symbol [" ++ msg.Symbol ++ "]", ?_⟩
    unfold handleNewOrder
    simp only [hc, hex, and_self, if_true]
  · intro r hr hcode
    rcases handleNewOrder_inv lib ops ctx keeper am msg r hr with
      ⟨_, hdup, _⟩ | ⟨_, ⟨e, he, rfl⟩ | ⟨am2, _, _, h⟩⟩
    · exact hdup
    · rw [he] at hcode; cases hcode
    · rcases h with ⟨_, err, _, rfl⟩ | ⟨_, k2, _, rfl⟩ | ⟨_, rfl⟩ <;> cases hcode

/-- C2 (witness): the check-mode duplicate of `o1`. -/
theorem handleNewOrder_DuplicatedOrder_check_mode_witness :
    checkCtx.IsCheckTx = true ∧ (specOps.OrderExists bookO1 "o1").isSome = true ∧
    ∃ log, handleNewOrder stdLib specOps checkCtx bookO1 aliceUSD10
        ⟨"alice", "o1", "BTC_USD", Side.BUY, 100000000, 5⟩ =
      some (errResult CodeType.DuplicatedOrder log, bookO1, aliceUSD10) :=
  ⟨by decide, by decide,
    (handleNewOrder_DuplicatedOrder_check_mode stdLib specOps checkCtx bookO1 aliceUSD10
      ⟨"alice", "o1", "BTC_USD", Side.BUY, 100000000, 5⟩).1 (by decide) (by decide)⟩

/-! ## New order: locking -/

/-- C4 (counterexample): a deliver-mode BUY of quantity 1 at price 1 succeeds and
locks `CalBigNotional 1 1 = 0` of the quote asset, while `ceil(1 * 1 / 10^8)` is
1: the available balance stays at 10 and the locked balance at 0. -/
theorem handleNewOrder_lock_not_ceil :
    ceilNotional 1 1 = 1 ∧ availableOf aliceUSD10 "alice" "USD" = 10 ∧
    lockedOf aliceUSD10 "alice" "USD" = 0 ∧
    (handleNewOrder stdLib specOps deliverCtx bookO1 aliceUSD10
      ⟨"alice", "o2", "BTC_USD", Side.BUY, 1, 1⟩).map
      (fun r => (r.1.Code, availableOf r.2.2 "alice" "USD", lockedOf r.2.2 "alice" "USD")) =
      some (CodeType.OK, 10, 0) := by
  refine ⟨?_, ?_, ?_, ?_⟩ <;> decide

/-- C4 (amended): a successful deliver-mode `handleNewOrder` decreases the
available balance and increases the locked balance of the sender by the same
amount of the same symbol: for a BUY the upper-cased quote asset and
`CalBigNotional(quantity, price)`, for a SELL the upper-cased base asset and the
quantity. -/
theorem handleNewOrder_locks {K : Type} (lib : Lib) (ops : KeeperOps K) (ctx : Context)
    (keeper : K) (am : AccountMapper) (msg : NewOrderMsg) (r : Result × K × AccountMapper)
    (hd : ctx.IsCheckTx = false)
    (hr : handleNewOrder lib ops ctx keeper am msg = some r) (hok : r.1.Code = CodeType.OK) :
    ∃ sym amt,
      (msg.Side = Side.BUY → sym = lib.ToUpper (lib.TradeSymbol2Ccy msg.Symbol).2 ∧
        amt = lib.CalBigNotional msg.Quantity msg.Price) ∧
      (msg.Side = Side.SELL → sym = lib.ToUpper (lib.TradeSymbol2Ccy msg.Symbol).1 ∧
        amt = msg.Quantity) ∧
      availableOf r.2.2 msg.Sender sym = availableOf am msg.Sender sym - amt ∧
      lockedOf r.2.2 msg.Sender sym = lockedOf am msg.Sender sym + amt := by
  refine ⟨(lockOf lib msg).1, (lockOf lib msg).2, ?_, ?_, ?_⟩
  · intro hb; simp [lockOf, hb]
  · intro hs
    have hne : ¬ msg.Side = Side.BUY := by rw [hs]; decide
    simp [lockOf, hne]
  · rcases handleNewOrder_inv lib ops ctx keeper am msg r hr with
      ⟨_, _, rfl⟩ | ⟨_, ⟨e, he, rfl⟩ | ⟨am2, hm, _, h⟩⟩
    · cases hok
    · rw [he] at hok; cases hok
    · rcases h with ⟨_, err, _, rfl⟩ | ⟨_, k2, _, rfl⟩ | ⟨hc, rfl⟩
      · cases hok
      · have h1 := hm.1 (lockOf lib msg).1
        have h2 := hm.2.1 (lockOf lib msg).1
        simp only [if_true] at h1 h2
        exact ⟨h1, h2⟩
      · rw [hd] at hc; cases hc

/-- C4 (witness): a deliver-mode BUY of 5 at price `10^8` by `alice`. -/
theorem handleNewOrder_locks_witness :
    ∃ r, handleNewOrder stdLib specOps deliverCtx bookO1 aliceUSD10
        ⟨"alice", "o2", "BTC_USD", Side.BUY, 100000000, 5⟩ = some r ∧
      r.1.Code = CodeType.OK ∧
      ∃ sym amt,
        (Side.BUY = Side.BUY → sym = stdLib.ToUpper (stdLib.TradeSymbol2Ccy "BTC_USD").2 ∧
          amt = stdLib.CalBigNotional 5 100000000) ∧
        (Side.BUY = Side.SELL → sym = stdLib.ToUpper (stdLib.TradeSymbol2Ccy "BTC_USD").1 ∧
          amt = 5) ∧
        availableOf r.2.2 "alice" sym = availableOf aliceUSD10 "alice" sym - amt ∧
        lockedOf r.2.2 "alice" sym = lockedOf aliceUSD10 "alice" sym + amt :=
  match h : handleNewOrder stdLib specOps deliverCtx bookO1 aliceUSD10
      ⟨"alice", "o2", "BTC_USD", Side.BUY, 100000000, 5⟩ with
  | some r =>
    have hok : r.1.Code = CodeType.OK := by
      have h2 : (handleNewOrder stdLib specOps deliverCtx bookO1 aliceUSD10
          ⟨"alice", "o2", "BTC_USD", Side.BUY, 100000000, 5⟩).map (fun r => r.1.Code) =
          some CodeType.OK := by decide
      rw [h] at h2
      exact Option.some.inj h2
    ⟨r, rfl, hok, handleNewOrder_locks stdLib specOps deliverCtx bookO1 aliceUSD10
      ⟨"alice", "o2", "BTC_USD", Side.BUY, 100000000, 5⟩ r rfl h hok⟩
  | none => by
    have h2 : (handleNewOrder stdLib specOps deliverCtx bookO1 aliceUSD10
        ⟨"alice", "o2", "BTC_USD", Side.BUY, 100000000, 5⟩).isSome = true := by decide
    rw [h] at h2
    cases h2

/-! ## New order: check mode -/

/-- C5 (counterexample): a check-mode BUY of 5 at price `10^8` with a fresh id
succeeds and moves 5 `USD` of `alice` from available to locked in the store it
is given: available 10 becomes 5, locked 0 becomes 5. -/
theorem handleNewOrder_check_mode_moves_balance :
    availableOf aliceUSD10 "alice" "USD" = 10 ∧ lockedOf aliceUSD10 "alice" "USD" = 0 ∧
    (handleNewOrder stdLib specOps checkCtx bookO1 aliceUSD10
      ⟨"alice", "o2", "BTC_USD", Side.BUY, 100000000, 5⟩).map
      (fun r => (r.1.Code, availableOf r.2.2 "alice" "USD", lockedOf r.2.2 "alice" "USD")) =
      some (CodeType.OK, 5, 5) := by
  refine ⟨?_, ?_, ?_⟩ <;> decide

/-- C5 (amended): in check mode `handleNewOrder` never changes the keeper (order
book); when it returns an error the account store is as it was; when it
succeeds it has moved the lock amount of the lock symbol from the available to
the locked balance of the sender and changed no other account. -/
theorem handleNewOrder_check_mode_frame {K : Type} (lib : Lib) (ops : KeeperOps K)
    (ctx : Context) (keeper : K) (am : AccountMapper) (msg : NewOrderMsg)
    (r : Result × K × AccountMapper) (hc : ctx.IsCheckTx = true)
    (hr : handleNewOrder lib ops ctx keeper am msg = some r) :
    r.2.1 = keeper ∧
    (r.1.Code ≠ CodeType.OK → r.2.2 = am) ∧
    (r.1.Code = CodeType.OK →
      (∀ sym, availableOf r.2.2 msg.Sender sym =
        availableOf am msg.Sender sym - (if (lockOf lib msg).1 = sym then (lockOf lib msg).2 else 0)) ∧
      (∀ sym, lockedOf r.2.2 msg.Sender sym =
        lockedOf am msg.Sender sym + (if (lockOf lib msg).1 = sym then (lockOf lib msg).2 else 0)) ∧
      (∀ a, a ≠ msg.Sender → r.2.2 a = am a)) := by
  rcases handleNewOrder_inv lib ops ctx keeper am msg r hr with
    ⟨_, _, rfl⟩ | ⟨_, ⟨e, he, rfl⟩ | ⟨am2, hm, _, h⟩⟩
  · exact ⟨rfl, fun _ => rfl, fun h => by cases h⟩
  · exact ⟨rfl, fun _ => rfl, fun h => by rw [he] at h; cases h⟩
  · rcases h with ⟨hd, _⟩ | ⟨hd, _⟩ | ⟨_, rfl⟩
    · rw [hc] at hd; cases hd
    · rw [hc] at hd; cases hd
    · exact ⟨rfl, fun h => absurd rfl h, fun _ => hm⟩

/-- C5 (witness): the check-mode BUY of `alice` with the fresh id `o2`. -/
theorem handleNewOrder_check_mode_frame_witness :
    ∃ r, handleNewOrder stdLib specOps checkCtx bookO1 aliceUSD10
        ⟨"alice", "o2", "BTC_USD", Side.BUY, 100000000, 5⟩ = some r ∧ r.2.1 = bookO1 :=
  match h : handleNewOrder stdLib specOps checkCtx bookO1 aliceUSD10
      ⟨"alice", "o2", "BTC_USD", Side.BUY, 100000000, 5⟩ with
  | some r =>
    ⟨r, rfl, (handleNewOrder_check_mode_frame stdLib specOps checkCtx bookO1 aliceUSD10
      ⟨"alice", "o2", "BTC_USD", Side.BUY, 100000000, 5⟩ r rfl h).1⟩
  | none => by
    have h2 : (handleNewOrder stdLib specOps checkCtx bookO1 aliceUSD10
        ⟨"alice", "o2", "BTC_USD", Side.BUY, 100000000, 5⟩).isSome = true := by decide
    rw [h] at h2
    cases h2

/-! ## New order: failure after the lock -/

/-- C6 (code defect): `handleNewOrder` subtracts the coins and raises the locked
balance before it calls `AddOrder`, and returns `FailInsertOrder` without
undoing either.  In deliver mode a second order `o1` (the keeper rejects the
duplicate) of `alice`, who holds 10 `USD`, is answered `FailInsertOrder`; the
book is as it was, yet her available balance fell from 10 to 5 and her locked
balance rose from 0 to 5. -/
theorem handleNewOrder_FailInsertOrder_keeps_lock :
    availableOf aliceUSD10 "alice" "USD" = 10 ∧ lockedOf aliceUSD10 "alice" "USD" = 0 ∧
    (handleNewOrder stdLib specOps deliverCtx bookO1 aliceUSD10
      ⟨"alice", "o1", "BTC_USD", Side.BUY, 100000000, 5⟩).map
      (fun r => (r.1.Code, r.2.1, availableOf r.2.2 "alice" "USD",
        lockedOf r.2.2 "alice" "USD")) =
      some (CodeType.FailInsertOrder, bookO1, 5, 5) := by
  refine ⟨?_, ?_, ?_⟩ <;> decide

/-! ## Cancel order: locating the order -/

/-- C7: when the referenced id does not exist, or exists with a sender other than
the sender of the message, `handleCancelOrder` returns `FailLocateOrderToCancel`
and leaves the keeper (order book) and the account store as they were. -/
theorem handleCancelOrder_FailLocate {K : Type} (lib : Lib) (ops : KeeperOps K) (ctx : Context)
    (keeper : K) (am : AccountMapper) (msg : CancelOrderMsg)
    (h : ops.OrderExists keeper msg.RefId = none ∨
      ∃ o, ops.OrderExists keeper msg.RefId = some o ∧ o.Sender ≠ msg.Sender) :
    ∃ r, handleCancelOrder lib ops ctx keeper am msg = some (r, keeper, am) ∧
      r.Code = CodeType.FailLocateOrderToCancel := by
  rcases h with h | ⟨o, h, hne⟩
  · exact ⟨_, by unfold handleCancelOrder; rw [h], rfl⟩
  · refine ⟨errResult CodeType.FailLocateOrderToCancel
      ("Order [" ++ msg.RefId ++ "] does not belong to transaction sender"), ?_, rfl⟩
    unfold handleCancelOrder
    rw [h]
    simp only
    rw [if_pos (fun heq => hne heq.symm)]

/-- C7 (witness): `bob` cancels the order `o1` of `alice`. -/
theorem handleCancelOrder_FailLocate_witness :
    (∃ o, specOps.OrderExists bookO1 "o1" = some o ∧ o.Sender ≠ "bob") ∧
    ∃ r, handleCancelOrder stdLib specOps deliverCtx bookO1 aliceLocked5 ⟨"bob", "o1"⟩ =
        some (r, bookO1, aliceLocked5) ∧ r.Code = CodeType.FailLocateOrderToCancel :=
  ⟨⟨_, rfl, by decide⟩,
    handleCancelOrder_FailLocate stdLib specOps deliverCtx bookO1 aliceLocked5 ⟨"bob", "o1"⟩
      (Or.inr ⟨_, rfl, by decide⟩)⟩

/-- The two messages of `FailLocateOrderToCancel` differ for every id. -/
theorem failLocate_logs_ne (id : String) :
    "Failed to find order [" ++ id ++ "]" ≠
      "Order [" ++ id ++ "] does not belong to transaction sender" := by
  intro h
  have h2 := congrArg (fun s => s.data.head?) h
  simp at h2

/-- C8 (counterexample): `bob` cancels `o1`.  Against a keeper without `o1` the
log is `Failed to find order [o1]`; against a keeper where `o1` belongs to
`alice` it is `Order [o1] does not belong to transaction sender`: the two
results are not identical. -/
theorem handleCancelOrder_results_differ :
    specOps.OrderExists bookEmpty "o1" = none ∧
    (∃ o, specOps.OrderExists bookO1 "o1" = some o ∧ o.Sender ≠ "bob") ∧
    (handleCancelOrder stdLib specOps deliverCtx bookEmpty aliceLocked5 ⟨"bob", "o1"⟩).map
      (fun r => r.1.Log) = some "Failed to find order [o1]" ∧
    (handleCancelOrder stdLib specOps deliverCtx bookO1 aliceLocked5 ⟨"bob", "o1"⟩).map
      (fun r => r.1.Log) = some "Order [o1] does not belong to transaction sender" ∧
    (handleCancelOrder stdLib specOps deliverCtx bookEmpty aliceLocked5 ⟨"bob", "o1"⟩).map
      (fun r => r.1) ≠
    (handleCancelOrder stdLib specOps deliverCtx bookO1 aliceLocked5 ⟨"bob", "o1"⟩).map
      (fun r => r.1) := by
  refine ⟨rfl, ⟨_, rfl, by decide⟩, by decide, by decide, ?_⟩
  intro h
  have h2 := congrArg (fun o => o.map (fun (r : Result) => r.Log)) h
  simp only [Option.map_map] at h2
  revert h2
  decide

/-- C8 (amended): the result of a cancel of an id that does not exist and the
result of a cancel of an existing order by another sender have the same code
`FailLocateOrderToCancel`, the same (empty) data and the same (empty) tags, and
different logs. -/
theorem handleCancelOrder_same_code_distinct_log {K : Type} (lib : Lib) (ops : KeeperOps K)
    (ctx ctx2 : Context) (k k2 : K) (am am2 : AccountMapper) (msg : CancelOrderMsg)
    (o : NewOrderMsg) (hno : ops.OrderExists k msg.RefId = none)
    (hex : ops.OrderExists k2 msg.RefId = some o) (hne : o.Sender ≠ msg.Sender) :
    ∃ r r2, handleCancelOrder lib ops ctx k am msg = some (r, k, am) ∧
      handleCancelOrder lib ops ctx2 k2 am2 msg = some (r2, k2, am2) ∧
      r.Code = CodeType.FailLocateOrderToCancel ∧ r2.Code = CodeType.FailLocateOrderToCancel ∧
      r.Data = r2.Data ∧ r.Tags = r2.Tags ∧ r.Log ≠ r2.Log := by
  refine ⟨errResult CodeType.FailLocateOrderToCancel ("Failed to find order [" ++ msg.RefId ++ "]"),
    errResult CodeType.FailLocateOrderToCancel
      ("Order [" ++ msg.RefId ++ "] does not belong to transaction sender"),
    ?_, ?_, rfl, rfl, rfl, rfl, failLocate_logs_ne msg.RefId⟩
  · unfold handleCancelOrder; rw [hno]
  · unfold handleCancelOrder
    rw [hex]
    simp only
    rw [if_pos (fun heq => hne heq.symm)]

/-- C8 (witness): `bob` cancels `o1`, absent from one keeper and owned by `alice`
in the other. -/
theorem handleCancelOrder_same_code_distinct_log_witness :
    ∃ r r2, handleCancelOrder stdLib specOps deliverCtx bookEmpty aliceLocked5 ⟨"bob", "o1"⟩ =
        some (r, bookEmpty, aliceLocked5) ∧
      handleCancelOrder stdLib specOps deliverCtx bookO1 aliceLocked5 ⟨"bob", "o1"⟩ =
        some (r2, bookO1, aliceLocked5) ∧
      r.Code = CodeType.FailLocateOrderToCancel ∧ r2.Code = CodeType.FailLocateOrderToCancel ∧
      r.Data = r2.Data ∧ r.Tags = r2.Tags ∧ r.Log ≠ r2.Log :=
  handleCancelOrder_same_code_distinct_log stdLib specOps deliverCtx deliverCtx bookEmpty bookO1
    aliceLocked5 aliceLocked5 ⟨"bob", "o1"⟩ _ rfl rfl (by decide)

/-! ## Cancel order: unlocking -/

theorem wrap64_neg (u : Int) (h1 : minInt64 < u) (h2 : u ≤ maxInt64) : wrap64 (-u) = -u := by
  apply wrap64_of_isInt64
  unfold isInt64
  unfold minInt64 at h1 ⊢
  unfold maxInt64 at h2 ⊢
  constructor <;> omega

/-- C9: a successful deliver-mode `handleCancelOrder` by the sender of a live
order leaves the keeper that `RemoveOrder` returns (the book without the order),
and decreases the locked balance and increases the available balance of the
sender by the same unlock amount of the same symbol: for a BUY the upper-cased
quote asset and `CalBigNotional(price, leaves)`, for a SELL the upper-cased base
asset and `leaves`.  The unlock amount is assumed not to be the smallest
`int64`, whose negation overflows. -/
theorem handleCancelOrder_unlocks {K : Type} (lib : Lib) (ops : KeeperOps K) (ctx : Context)
    (keeper k2 : K) (am : AccountMapper) (msg : CancelOrderMsg) (origOrd : NewOrderMsg)
    (ord : OrderPart) (r : Result × K × AccountMapper)
    (hd : ctx.IsCheckTx = false)
    (hex : ops.OrderExists keeper msg.RefId = some origOrd)
    (hown : msg.Sender = origOrd.Sender)
    (hrm : ops.RemoveOrder keeper origOrd.Id origOrd.Symbol origOrd.Side origOrd.Price =
      .ok (ord, k2))
    (hmin : minInt64 < (unlockOf lib origOrd ord.LeavesQty).2)
    (hr : handleCancelOrder lib ops ctx keeper am msg = some r)
    (hok : r.1.Code = CodeType.OK) :
    r.2.1 = k2 ∧
    ∃ sym u,
      (origOrd.Side = Side.BUY → sym = lib.ToUpper (lib.TradeSymbol2Ccy origOrd.Symbol).2 ∧
        u = lib.CalBigNotional origOrd.Price ord.LeavesQty) ∧
      (origOrd.Side = Side.SELL → sym = lib.ToUpper (lib.TradeSymbol2Ccy origOrd.Symbol).1 ∧
        u = ord.LeavesQty) ∧
      lockedOf r.2.2 msg.Sender sym = lockedOf am msg.Sender sym - u ∧
      availableOf r.2.2 msg.Sender sym = availableOf am msg.Sender sym + u := by
  have hloc : locateOrder ops ctx keeper origOrd = .ok (ord, k2) := by
    unfold locateOrder; rw [hd]; exact hrm
  unfold handleCancelOrder at hr
  rw [hex] at hr
  simp only at hr
  rw [if_neg (not_not.mpr hown), hloc] at hr
  simp only at hr
  cases hacc : am.GetAccount msg.Sender with
  | none => simp [hacc] at hr
  | some account =>
    simp only [hacc] at hr
    cases h64 : Int64 (account.LockedCoins.AmountOf (unlockOf lib origOrd ord.LeavesQty).1) with
    | none => simp [h64] at hr
    | some lockedAmount =>
      have hv : lockedAmount = lockedOf am msg.Sender (unlockOf lib origOrd ord.LeavesQty).1 ∧
          lockedAmount ≤ maxInt64 := by
        unfold Int64 at h64
        split_ifs at h64 with hin
        have := Option.some.inj h64
        subst this
        exact ⟨by unfold lockedOf; rw [hacc], hin.2⟩
      simp only [h64] at hr
      by_cases hlt : lockedAmount < (unlockOf lib origOrd ord.LeavesQty).2
      · rw [if_pos hlt] at hr
        have := Option.some.inj hr
        subst this
        cases hok
      · rw [if_neg hlt] at hr
        cases hadd : AddCoinsWith id am msg.Sender
            [⟨(unlockOf lib origOrd ord.LeavesQty).1, (unlockOf lib origOrd ord.LeavesQty).2⟩] with
        | mk am1 oe =>
          cases oe with
          | some e =>
            simp only [hadd] at hr
            have he := (AddCoinsWith_error id am msg.Sender _ e (by rw [hadd])).2
            have := Option.some.inj hr
            subst this
            rw [he] at hok
            cases hok
          | none =>
            simp only [hadd] at hr
            have h1 : am1 = setCoins am msg.Sender (Coins.Plus (GetCoins am msg.Sender)
                [⟨(unlockOf lib origOrd ord.LeavesQty).1,
                  (unlockOf lib origOrd ord.LeavesQty).2⟩]) := by
              have hok2 := AddCoinsWith_ok id am msg.Sender _ (by rw [hadd])
              rw [hadd] at hok2
              exact hok2
            cases hupd : updateLockedOfAccount am1 msg.Sender
                (unlockOf lib origOrd ord.LeavesQty).1
                (wrap64 (-(unlockOf lib origOrd ord.LeavesQty).2)) with
            | none => simp [hupd] at hr
            | some am2 =>
              simp only [hupd] at hr
              have := Option.some.inj hr
              subst this
              refine ⟨rfl, (unlockOf lib origOrd ord.LeavesQty).1,
                (unlockOf lib origOrd ord.LeavesQty).2, ?_, ?_, ?_, ?_⟩
              · intro hb; simp [unlockOf, hb]
              · intro hs
                have hne : ¬ origOrd.Side = Side.BUY := by rw [hs]; decide
                simp [unlockOf, hne]
              · rw [(updateLockedOfAccount_effect am1 am2 _ _ _ hupd _).1, h1,
                  lockedOf_setCoins, if_pos rfl,
                  wrap64_neg _ hmin (le_trans (not_lt.mp hlt) hv.2)]
                ring
              · rw [(updateLockedOfAccount_effect am1 am2 _ _ _ hupd _).2, h1,
                  availableOf_setCoins, Coins.amountOf_Plus_single, if_pos rfl]
                rfl

/-- C9 (witness): `alice`, with 5 `USD` locked, cancels her resting BUY `o1` of
5 at price `10^8`. -/
theorem handleCancelOrder_unlocks_witness :
    ∃ r, handleCancelOrder stdLib specOps deliverCtx bookO1 aliceLocked5 ⟨"alice", "o1"⟩ =
        some r ∧ r.1.Code = CodeType.OK ∧ r.2.1 = bookEmpty ∧
      ∃ sym u,
        (Side.BUY = Side.BUY → sym = stdLib.ToUpper (stdLib.TradeSymbol2Ccy "BTC_USD").2 ∧
          u = stdLib.CalBigNotional 100000000 5) ∧
        (Side.BUY = Side.SELL → sym = stdLib.ToUpper (stdLib.TradeSymbol2Ccy "BTC_USD").1 ∧
          u = 5) ∧
        lockedOf r.2.2 "alice" sym = lockedOf aliceLocked5 "alice" sym - u ∧
        availableOf r.2.2 "alice" sym = availableOf aliceLocked5 "alice" sym + u :=
  match h : handleCancelOrder stdLib specOps deliverCtx bookO1 aliceLocked5 ⟨"alice", "o1"⟩ with
  | some r =>
    have hok : r.1.Code = CodeType.OK := by
      have h2 : (handleCancelOrder stdLib specOps deliverCtx bookO1 aliceLocked5
          ⟨"alice", "o1"⟩).map (fun r => r.1.Code) = some CodeType.OK := by decide
      rw [h] at h2
      exact Option.some.inj h2
    have hall := handleCancelOrder_unlocks stdLib specOps deliverCtx bookO1 bookEmpty
      aliceLocked5 ⟨"alice", "o1"⟩ ⟨"alice", "o1", "BTC_USD", Side.BUY, 100000000, 5⟩
      ⟨"o1", 5, 1⟩ r rfl rfl rfl rfl (by decide) h hok
    ⟨r, rfl, hok, hall.1, hall.2⟩
  | none => by
    have h2 : (handleCancelOrder stdLib specOps deliverCtx bookO1 aliceLocked5
        ⟨"alice", "o1"⟩).isSome = true := by decide
    rw [h] at h2
    cases h2

/-- C10 (code defect): in deliver mode `handleCancelOrder` calls `RemoveOrder`
before it compares the locked balance with the unlock amount.  `alice`, whose
locked balance of `USD` is 0, cancels her resting BUY `o1` (unlock amount 5):
the handler returns `InsufficientCoins`, her balances are as they were, and the
order `o1` is gone from the book. -/
theorem handleCancelOrder_InsufficientCoins_removes_order :
    (specOps.OrderExists bookO1 "o1").isSome = true ∧
    (handleCancelOrder stdLib specOps deliverCtx bookO1 aliceUSD10 ⟨"alice", "o1"⟩).map
      (fun r => (r.1.Code, r.2.1, (specOps.OrderExists r.2.1 "o1").isSome,
        availableOf r.2.2 "alice" "USD", lockedOf r.2.2 "alice" "USD")) =
      some (CodeType.InsufficientCoins, bookEmpty, false, 10, 0) := by
  refine ⟨?_, ?_⟩ <;> decide

/-! ## End of block: books and publication -/

theorem Book.matchAll_uncrossed (b : Book) : b.matchAll.uncrossed = true := by
  unfold Book.matchAll Book.uncrossed
  simp only [List.all_eq_true, List.mem_filter, decide_eq_true_eq]
  intro bid hbid ask hask
  exact hbid.2 ask hask

/-- C11 (counterexample): at height 1000 `EndBlocker` runs the housekeeping and
no matching.  With a matching routine that uncrosses every book whenever it
runs, a book that the transactions of the block left with a bid at 101 and an
ask at 100 is still crossed after `EndBlocker`. -/
theorem EndBlocker_breathe_block_leaves_crossed_book :
    (∀ s : List Book,
      ((bookOps.run Step.MatchAndAllocateAll s).all Book.uncrossed = true) ∧
      ((bookOps.run Step.MatchAndAllocateAllForPublish s).all Book.uncrossed = true)) ∧
    EndBlockerRun bookOps ⟨0, 0, 1000, false, false, 0⟩ [⟨[101], [100]⟩] = [⟨[101], [100]⟩] ∧
    (EndBlockerRun bookOps ⟨0, 0, 1000, false, false, 0⟩ [⟨[101], [100]⟩]).all
      Book.uncrossed = false := by
  refine ⟨fun s => ⟨?_, ?_⟩, by decide, by decide⟩ <;>
    simp [bookOps, Book.matchAll_uncrossed]

/-- C11 (amended): at every height that is not a multiple of 1000, the state
`EndBlocker` leaves is uncrossed, provided both matching routines leave every
book uncrossed and the calls after matching do not touch the books. -/
theorem EndBlocker_normal_block_uncrossed {S : Type} (uncrossed : S → Prop) (ops : BlockOps S)
    (req : EndBlockInput) (s : S)
    (hmatch : ∀ s, uncrossed (ops.run Step.MatchAndAllocateAll s))
    (hmatchPub : ∀ s, uncrossed (ops.run Step.MatchAndAllocateAllForPublish s))
    (hframe : ∀ step s, step.leavesBooks = true → uncrossed s → uncrossed (ops.run step s))
    (hnormal : req.height % 1000 ≠ 0) :
    uncrossed (EndBlockerRun ops req s) := by
  unfold EndBlockerRun EndBlocker
  simp only [hnormal, ne_eq, not_false_eq_true, if_true]
  have hfee := fun s h => hframe Step.DistributeFee s rfl h
  have hpub := fun s h => hframe Step.Publish s rfl h
  have hcl1 := fun s h => hframe Step.ClearOrderChanges s rfl h
  have hcl2 := fun s h => hframe Step.ClearRoundFee s rfl h
  have hgov := fun s h => hframe Step.GovEndBlocker s rfl h
  have hstk := fun s h => hframe Step.StakeEndBlocker s rfl h
  cases hp : (req.ShouldPublishAny && req.IsLive) <;>
  cases hd : SameDayInUTC req.lastBlockTime req.blockTime <;>
  by_cases hh : req.height ≥ req.FromHeightInclusive <;>
  simp only [hh, if_true, if_false, Bool.not_true, Bool.not_false, List.foldl,
    List.cons_append, List.nil_append, List.append_nil, Bool.false_eq_true] <;>
  first
  | exact hgov _ (hfee _ (hmatch _))
  | exact hstk _ (hgov _ (hfee _ (hmatch _)))
  | exact hgov _ (hcl2 _ (hcl1 _ (hfee _ (hmatchPub _))))
  | exact hstk _ (hgov _ (hcl2 _ (hcl1 _ (hfee _ (hmatchPub _)))))
  | exact hgov _ (hcl2 _ (hcl1 _ (hpub _ (hfee _ (hmatchPub _)))))
  | exact hstk _ (hgov _ (hcl2 _ (hcl1 _ (hpub _ (hfee _ (hmatchPub _))))))

theorem bookOps_match_uncrossed (s : List Book) :
    (bookOps.run Step.MatchAndAllocateAll s).all Book.uncrossed = true ∧
    (bookOps.run Step.MatchAndAllocateAllForPublish s).all Book.uncrossed = true := by
  constructor <;> simp [bookOps, Book.matchAll_uncrossed]

theorem bookOps_frame (step : Step) (s : List Book) (h : step.leavesBooks = true)
    (hs : s.all Book.uncrossed = true) : (bookOps.run step s).all Book.uncrossed = true := by
  cases step <;> first | exact hs | cases h

/-- C11 (witness): at height 5 the crossed book is uncrossed by `EndBlocker`. -/
theorem EndBlocker_normal_block_uncrossed_witness :
    (5 : Int) % 1000 ≠ 0 ∧
    (EndBlockerRun bookOps ⟨0, 0, 5, false, false, 0⟩ [⟨[101], [100]⟩]).all Book.uncrossed =
      true :=
  ⟨by decide,
    EndBlocker_normal_block_uncrossed (fun s => s.all Book.uncrossed = true) bookOps
      ⟨0, 0, 5, false, false, 0⟩ [⟨[101], [100]⟩]
      (fun s => (bookOps_match_uncrossed s).1) (fun s => (bookOps_match_uncrossed s).2)
      bookOps_frame (by decide)⟩

/-- C17 (counterexample): with publication configured (`ShouldPublishAny`) and the
height at `from_height_inclusive`, but `pub.IsLive` unset, `EndBlocker` does not
call `publish`. -/
theorem EndBlocker_not_live_no_publish :
    specPublishes ⟨0, 0, 5, true, false, 5⟩ = true ∧
    (EndBlocker ⟨0, 0, 5, true, false, 5⟩).contains Step.Publish = false := by
  refine ⟨?_, ?_⟩ <;> decide

/-- C17 (amended): `EndBlocker` calls `publish`, which enqueues one `BlockInfo`,
if and only if publication is configured (`ShouldPublishAny`), the publisher is
live (`pub.IsLive`) and the height has reached `FromHeightInclusive`. -/
theorem EndBlocker_publish_iff (req : EndBlockInput) :
    Step.Publish ∈ EndBlocker req ↔
      (req.ShouldPublishAny = true ∧ req.IsLive = true ∧
        req.height ≥ req.FromHeightInclusive) := by
  unfold EndBlocker
  cases hs : req.ShouldPublishAny <;> cases hl : req.IsLive <;>
  cases hd : SameDayInUTC req.lastBlockTime req.blockTime <;>
  by_cases hh : req.height ≥ req.FromHeightInclusive <;>
  by_cases hn : req.height % 1000 ≠ 0 <;>
  simp [hh, hn]

/-! ## Freeze -/

/-- C12 (code defect): `handleFreezeToken` multiplies in `int64` without a guard.
On a token with 8 decimals a freeze of 92233720369 scales to
`10^8 * 92233720369`, which wraps to `-9223372036809551616`.  For an account
that holds nothing the handler succeeds, the available bucket rises from 0 to
`9223372036809551616` and the frozen bucket falls from 0 to
`-9223372036809551616`. -/
theorem handleFreezeToken_overflow_negative_frozen :
    wrap64 (Pow10Int64 8 * 92233720369) = -9223372036809551616 ∧
    availableOf aliceEmpty "alice" "BTC" = 0 ∧ frozenOf aliceEmpty "alice" "BTC" = 0 ∧
    (handleFreezeToken stdLib tokensBTC8 aliceEmpty ⟨"alice", "btc", 92233720369⟩).map
      (fun r => (r.1.Code, availableOf r.2 "alice" "BTC", frozenOf r.2 "alice" "BTC")) =
      some (CodeType.OK, 9223372036809551616, -9223372036809551616) := by
  refine ⟨?_, ?_, ?_, ?_⟩ <;> decide

/-! ## List message -/

/-- C18: `Msg.ValidateBasic` returns nil exactly when both symbols pass
`ValidateSymbol` and the price is positive; every error it returns is
`InvalidCoins`, and it reports the base symbol before the quote symbol before
the price. -/
theorem ValidateBasic_spec (ValidateSymbol : String → Option String) (msg : ListMsg) :
    (msg.ValidateBasic ValidateSymbol = none ↔
      (ValidateSymbol msg.BaseAssetSymbol = none ∧ ValidateSymbol msg.QuoteAssetSymbol = none ∧
        msg.InitPrice > 0)) ∧
    (∀ e, msg.ValidateBasic ValidateSymbol = some e → e.Code = CodeType.InvalidCoins) ∧
    (∀ err, ValidateSymbol msg.BaseAssetSymbol = some err →
      msg.ValidateBasic ValidateSymbol = some (ErrInvalidCoins ("base token: " ++ err))) ∧
    (∀ err, ValidateSymbol msg.BaseAssetSymbol = none →
      ValidateSymbol msg.QuoteAssetSymbol = some err →
      msg.ValidateBasic ValidateSymbol = some (ErrInvalidCoins ("quote token: " ++ err))) ∧
    (ValidateSymbol msg.BaseAssetSymbol = none → ValidateSymbol msg.QuoteAssetSymbol = none →
      msg.InitPrice ≤ 0 →
      msg.ValidateBasic ValidateSymbol = some (ErrInvalidCoins "price should be positive")) := by
  unfold ListMsg.ValidateBasic
  cases hb : ValidateSymbol msg.BaseAssetSymbol <;>
  cases hq : ValidateSymbol msg.QuoteAssetSymbol <;>
  by_cases hp : msg.InitPrice ≤ 0 <;>
  simp [hp, ErrInvalidCoins, errResult]
  all_goals omega

/-- C18 (witness): a message with an invalid base symbol, an invalid quote symbol
and a price of zero is reported for its base symbol. -/
theorem ValidateBasic_spec_witness :
    (ListMsg.mk "alice" "" "" 0).ValidateBasic
        (fun s => if s = "" then some "empty symbol" else none) =
      some (ErrInvalidCoins ("base token: " ++ "empty symbol")) :=
  (ValidateBasic_spec (fun s => if s = "" then some "empty symbol" else none)
    ⟨"alice", "", "", 0⟩).2.2.1 "empty symbol" (by decide)

/-! ## Coins with `int64` amounts -/

theorem Coins.PlusWith_nil_right (norm : Int → Int) (a : Coins) : PlusWith norm a [] = a := by
  cases a <;> simp [PlusWith, PlusWith.go]

theorem wrap64_add_of_nonneg (x y : Int) (hx0 : 0 ≤ x) (hx1 : x ≤ maxInt64) (hy : isInt64 y)
    (h : 0 ≤ wrap64 (x + y)) : wrap64 (x + y) = x + y := by
  unfold isInt64 minInt64 maxInt64 at hy
  unfold maxInt64 at hx1
  unfold wrap64 at h ⊢
  omega

theorem Coins.isNotNegative_cons (c : Coin) (cs : Coins) :
    IsNotNegative (c :: cs) = true ↔ 0 ≤ c.Amount ∧ IsNotNegative cs = true := by
  simp [IsNotNegative]

theorem Coins.amountOf_go64 (coinA : Coin) (as : Coins) (recA : Coins → Coins) (d : String)
    (hA : 0 ≤ coinA.Amount ∧ coinA.Amount ≤ maxInt64)
    (hrec : ∀ b, IsNotNegative (recA b) = true → (∀ c ∈ b, isInt64 c.Amount) →
      AmountOf (recA b) d = AmountOf as d + AmountOf b d)
    (b : Coins) (hres : IsNotNegative (PlusWith.go wrap64 coinA as recA b) = true)
    (hb : ∀ c ∈ b, isInt64 c.Amount) :
    AmountOf (PlusWith.go wrap64 coinA as recA b) d = AmountOf (coinA :: as) d + AmountOf b d := by
  induction b with
  | nil => simp [PlusWith.go, AmountOf]
  | cons coinB bs ih =>
    have hB : isInt64 coinB.Amount := hb coinB (List.mem_cons_self _ _)
    have hbs : ∀ c ∈ bs, isInt64 c.Amount := fun c hc => hb c (List.mem_cons_of_mem _ hc)
    simp only [PlusWith.go] at hres ⊢
    split_ifs at hres ⊢ with h1 h2 h3
    · rw [Coins.isNotNegative_cons] at hres
      simp only [AmountOf, hrec _ hres.2 hb]; ring
    · have h0 : coinA.Amount + coinB.Amount = 0 := by
        have := wrap64_add_of_nonneg _ _ hA.1 hA.2 hB (by rw [h3])
        rw [h3] at this; exact this.symm
      rw [hrec _ hres hbs]; simp only [AmountOf]
      by_cases hd : coinA.Denom = d
      · have hd2 : coinB.Denom = d := h2 ▸ hd
        simp only [hd, hd2, if_true]; linarith
      · have hd2 : ¬ coinB.Denom = d := h2 ▸ hd
        simp only [hd, hd2, if_false]; ring
    · rw [Coins.isNotNegative_cons] at hres
      have hw := wrap64_add_of_nonneg _ _ hA.1 hA.2 hB hres.1
      simp only [AmountOf, hrec _ hres.2 hbs, hw]
      by_cases hd : coinA.Denom = d
      · have hd2 : coinB.Denom = d := h2 ▸ hd
        simp only [hd, hd2, if_true]; ring
      · have hd2 : ¬ coinB.Denom = d := h2 ▸ hd
        simp only [hd, hd2, if_false]; ring
    · rw [Coins.isNotNegative_cons] at hres
      have := ih hres.2 hbs
      simp only [AmountOf] at this ⊢; rw [this]; ring

/-- `AmountOf` is additive over `Plus` on `int64` amounts when the left coins are
non-negative and the sum passes `IsNotNegative`. -/
theorem Coins.amountOf_Plus64 (a b : Coins) (d : String)
    (ha : ∀ c ∈ a, 0 ≤ c.Amount ∧ c.Amount ≤ maxInt64) (hb : ∀ c ∈ b, isInt64 c.Amount)
    (hres : IsNotNegative (PlusWith wrap64 a b) = true) :
    AmountOf (PlusWith wrap64 a b) d = AmountOf a d + AmountOf b d := by
  induction a generalizing b with
  | nil => simp [PlusWith, AmountOf]
  | cons coinA as ih =>
    simp only [PlusWith] at hres ⊢
    exact Coins.amountOf_go64 coinA as _ d (ha coinA (List.mem_cons_self _ _))
      (fun b hr hb => ih b (fun c hc => ha c (List.mem_cons_of_mem _ hc)) hb hr) b hres hb

theorem AddCoinsWith_ok_nonneg (norm : Int → Int) (am : AccountMapper) (addr : AccAddress)
    (amt : Coins) (h : (AddCoinsWith norm am addr amt).2 = none) :
    (Coins.PlusWith norm (GetCoins am addr) amt).IsNotNegative = true := by
  unfold AddCoinsWith at h
  dsimp only at h
  by_cases hneg : (!(Coins.PlusWith norm (GetCoins am addr) amt).IsNotNegative) = true
  · rw [if_pos hneg] at h
    cases h
  · simpa using hneg

theorem frozenOf_setCoins (am : AccountMapper) (addr : AccAddress) (cs : Coins)
    (sym : String) : frozenOf (setCoins am addr cs) addr sym = frozenOf am addr sym := by
  unfold frozenOf setCoins AccountMapper.GetAccount AccountMapper.SetAccount
  cases h : am addr <;> simp [Coins.AmountOf]

/-- The effect of a successful `AddCoins` of one `int64` coin on an account with
non-negative coins: the balance of the symbol rises by the amount, every other
balance and every other account is as it was. -/
theorem AddCoinsWith_single_effect (am am2 : AccountMapper) (addr : AccAddress) (sym : String)
    (x : Int) (h : AddCoinsWith wrap64 am addr [⟨sym, x⟩] = (am2, none))
    (hc : ∀ c ∈ GetCoins am addr, 0 ≤ c.Amount ∧ c.Amount ≤ maxInt64) (hx : isInt64 x) :
    (∀ d, availableOf am2 addr d = availableOf am addr d + (if sym = d then x else 0)) ∧
    (∀ d, lockedOf am2 addr d = lockedOf am addr d) ∧
    (∀ d, frozenOf am2 addr d = frozenOf am addr d) ∧
    (∀ a, a ≠ addr → am2 a = am a) := by
  have h2 : (AddCoinsWith wrap64 am addr [⟨sym, x⟩]).2 = none := by rw [h]
  have hok := AddCoinsWith_ok wrap64 am addr _ h2
  have hnn := AddCoinsWith_ok_nonneg wrap64 am addr _ h2
  rw [h] at hok
  have hok2 : am2 = setCoins am addr (Coins.PlusWith wrap64 (GetCoins am addr) [⟨sym, x⟩]) := hok
  subst hok2
  refine ⟨fun d => ?_, fun d => lockedOf_setCoins _ _ _ _, fun d => frozenOf_setCoins _ _ _ _,
    fun a ha => setCoins_other _ _ _ _ ha⟩
  rw [availableOf_setCoins, Coins.amountOf_Plus64 _ _ d hc
    (fun c hc => by simp only [List.mem_singleton] at hc; subst hc; exact hx) hnn]
  simp only [Coins.AmountOf, availableOf]
  ring

/-! ## Mint -/

/-- C13: `handleMintToken` fails and leaves the token store and the account store
as they were when the token does not exist (`InvalidCoins`), when it exists and
is not mintable (`InvalidCoins`), and when it is mintable and the sender is not
its owner (`Unauthorized`); every mint that succeeds is of an existing mintable
token by its owner. -/
theorem handleMintToken_guards (lib : Lib) (tl : TokenLib) (tm : TokenMapper)
    (am : AccountMapper) (msg : MintMsg) :
    (tm (lib.ToUpper msg.Symbol) = none →
      ∃ log, handleMintToken lib tl tm am msg = some (ErrInvalidCoins log, tm, am)) ∧
    (∀ token, tm (lib.ToUpper msg.Symbol) = some token → token.Mintable = false →
      ∃ log, handleMintToken lib tl tm am msg = some (ErrInvalidCoins log, tm, am)) ∧
    (∀ token, tm (lib.ToUpper msg.Symbol) = some token → token.Mintable = true →
      token.Owner ≠ msg.From →
      ∃ log, handleMintToken lib tl tm am msg = some (ErrUnauthorized log, tm, am)) ∧
    (∀ r, handleMintToken lib tl tm am msg = some r → r.1.Code = CodeType.OK →
      ∃ token, tm (lib.ToUpper msg.Symbol) = some token ∧ token.Mintable = true ∧
        token.Owner = msg.From) := by
  refine ⟨fun h => ?_, fun token h hm => ?_, fun token h hm ho => ?_, fun r hr hok => ?_⟩
  · refine ⟨"symbol(" ++ msg.Symbol ++ ") does not exist", ?_⟩
    unfold handleMintToken TokenMapper.GetToken
    simp only [h]
  · refine ⟨"token(" ++ msg.Symbol ++ ") cannot be minted", ?_⟩
    unfold handleMintToken TokenMapper.GetToken
    simp [h, hm]
  · refine ⟨"only the owner can mint token " ++ msg.Symbol, ?_⟩
    unfold handleMintToken TokenMapper.GetToken
    simp [h, hm, ho]
  · unfold handleMintToken TokenMapper.GetToken at hr
    cases h : tm (lib.ToUpper msg.Symbol) with
    | none =>
      simp only [h] at hr
      have := Option.some.inj hr
      subst this
      cases hok
    | some token =>
      simp only [h] at hr
      refine ⟨token, rfl, ?_⟩
      cases hm : token.Mintable with
      | false =>
        simp only [hm, Bool.not_false, if_true] at hr
        have := Option.some.inj hr
        subst this
        cases hok
      | true =>
        refine ⟨rfl, ?_⟩
        by_contra ho
        simp only [hm, Bool.not_true, Bool.false_eq_true, if_false, ho, not_false_eq_true,
          if_true] at hr
        have := Option.some.inj hr
        subst this
        cases hok

/-- C13 (witness): `alice` mints the token `TKN-ABC` of `owner`. -/
theorem handleMintToken_guards_witness :
    ∃ log, handleMintToken stdLib specTokenLib tokensTKN ownerEmpty ⟨"alice", "tkn-abc", 5⟩ =
      some (ErrUnauthorized log, tokensTKN, ownerEmpty) :=
  (handleMintToken_guards stdLib specTokenLib tokensTKN ownerEmpty ⟨"alice", "tkn-abc", 5⟩).2.2.1
    ⟨"Token", "TKN-ABC", 1000, "owner", 8, true⟩ (by decide) rfl (by decide)

/-- C14 (code defect): `handleMintToken` rewrites the total supply before it calls
`AddCoins` and returns the error of `AddCoins` without undoing the rewrite.  The
owner of `TKN-ABC` (supply 1000), who holds no coins, mints the `int64` amount
-5: the sum 995 does not exceed the ceiling, the handler returns
`InsufficientCoins` with no data, the available balance of the owner is still 0,
and the supply of the token is 995. -/
theorem handleMintToken_error_after_supply_update :
    (1000 : Int) + (-5) ≤ specTokenLib.TokenMaxTotalSupply ∧
    (tokensTKN "TKN-ABC").map (fun t => t.TotalSupply) = some 1000 ∧
    availableOf ownerEmpty "owner" "TKN-ABC" = 0 ∧
    (handleMintToken stdLib specTokenLib tokensTKN ownerEmpty ⟨"owner", "tkn-abc", -5⟩).map
      (fun r => (r.1.Code, r.1.Data, (r.2.1 "TKN-ABC").map (fun t => t.TotalSupply),
        availableOf r.2.2 "owner" "TKN-ABC")) =
      some (CodeType.InsufficientCoins, "", some 995, 0) := by
  refine ⟨?_, ?_, ?_, ?_⟩ <;> decide

/-! ## Issue -/

/-- Every way `handleIssueToken` succeeds. -/
theorem handleIssueToken_ok_inv (lib : Lib) (tl : TokenLib) (txHash : ContextValue)
    (tm : TokenMapper) (am : AccountMapper) (msg : IssueMsg)
    (r : Result × TokenMapper × AccountMapper)
    (hr : handleIssueToken lib tl txHash tm am msg = some r) (hok : r.1.Code = CodeType.OK) :
    ∃ h token serialized, txHash = .string h ∧ h.length ≥ tl.TokenSymbolTxHashSuffixLen ∧
      tm.Exists (suffixedSymbol lib tl.TokenSymbolTxHashSuffixLen msg.Symbol h) = false ∧
      tl.NewToken msg.Name (suffixedSymbol lib tl.TokenSymbolTxHashSuffixLen msg.Symbol h)
        msg.TotalSupply msg.From msg.Mintable = .ok token ∧
      tm.NewToken token = .ok r.2.1 ∧
      AddCoinsWith wrap64 am token.Owner [⟨token.Symbol, token.TotalSupply⟩] = (r.2.2, none) ∧
      tl.Marshal token = some serialized ∧
      r.1 = { Data := serialized, Log := "Issued " ++ token.Symbol } := by
  unfold handleIssueToken at hr
  cases txHash with
  | absent => simp only at hr; have := Option.some.inj hr; subst this; cases hok
  | other => simp only at hr; have := Option.some.inj hr; subst this; cases hok
  | string h =>
    simp only at hr
    by_cases hlen : h.length ≥ tl.TokenSymbolTxHashSuffixLen
    · rw [if_pos hlen] at hr
      cases hex : tm.Exists (suffixedSymbol lib tl.TokenSymbolTxHashSuffixLen msg.Symbol h) with
      | true =>
        simp only [hex, if_true] at hr
        have := Option.some.inj hr; subst this; cases hok
      | false =>
        simp only [hex, Bool.false_eq_true, if_false] at hr
        cases hnew : tl.NewToken msg.Name
            (suffixedSymbol lib tl.TokenSymbolTxHashSuffixLen msg.Symbol h)
            msg.TotalSupply msg.From msg.Mintable with
        | error err =>
          simp only [hnew] at hr
          have := Option.some.inj hr; subst this; cases hok
        | ok token =>
          simp only [hnew] at hr
          cases hst : tm.NewToken token with
          | error err =>
            simp only [hst] at hr
            have := Option.some.inj hr; subst this; cases hok
          | ok tm2 =>
            simp only [hst] at hr
            cases hadd : AddCoinsWith wrap64 am token.Owner
                [⟨token.Symbol, token.TotalSupply⟩] with
            | mk am1 oe =>
              cases oe with
              | some e =>
                simp only [hadd] at hr
                have he := (AddCoinsWith_error wrap64 am token.Owner _ e (by rw [hadd])).2
                have := Option.some.inj hr; subst this
                rw [he] at hok; cases hok
              | none =>
                simp only [hadd] at hr
                cases hms : tl.Marshal token with
                | none => simp [hms] at hr
                | some serialized =>
                  simp only [hms] at hr
                  have := Option.some.inj hr; subst this
                  exact ⟨h, token, serialized, rfl, hlen, hex, hnew, hst, hadd, hms, rfl⟩
    · rw [if_neg hlen] at hr
      have := Option.some.inj hr; subst this; cases hok

theorem AddCoinsWith_frame (norm : Int → Int) (am am2 : AccountMapper) (addr : AccAddress)
    (amt : Coins) (h : AddCoinsWith norm am addr amt = (am2, none)) :
    (∀ d, lockedOf am2 addr d = lockedOf am addr d) ∧
    (∀ d, frozenOf am2 addr d = frozenOf am addr d) ∧
    (∀ a, a ≠ addr → am2 a = am a) := by
  have hok := AddCoinsWith_ok norm am addr amt (by rw [h])
  rw [h] at hok
  have hok2 : am2 = setCoins am addr (Coins.PlusWith norm (GetCoins am addr) amt) := hok
  subst hok2
  exact ⟨fun d => lockedOf_setCoins _ _ _ _, fun d => frozenOf_setCoins _ _ _ _,
    fun a ha => setCoins_other _ _ _ _ ha⟩

theorem TokenMapper.NewToken_stored (tm tm2 : TokenMapper) (token : Token)
    (h : tm.NewToken token = .ok tm2) : tm2 token.Symbol = some token := by
  unfold TokenMapper.NewToken at h
  split_ifs at h
  have := Except.ok.inj h
  subst this
  simp

/-- The way `handleIssueToken` succeeds: with a hash of enough bytes and a symbol
that is not registered, when `NewToken` builds the token, the store takes it,
`AddCoins` accepts the credit and the token is serialized. -/
theorem handleIssueToken_ok_of (lib : Lib) (tl : TokenLib) (h : List UInt8)
    (tm tm2 : TokenMapper) (am am2 : AccountMapper) (msg : IssueMsg) (token : Token)
    (serialized : String) (hlen : h.length ≥ tl.TokenSymbolTxHashSuffixLen)
    (hex : tm.Exists (suffixedSymbol lib tl.TokenSymbolTxHashSuffixLen msg.Symbol h) = false)
    (hnew : tl.NewToken msg.Name (suffixedSymbol lib tl.TokenSymbolTxHashSuffixLen msg.Symbol h)
      msg.TotalSupply msg.From msg.Mintable = .ok token)
    (hst : tm.NewToken token = .ok tm2)
    (hadd : AddCoinsWith wrap64 am token.Owner [⟨token.Symbol, token.TotalSupply⟩] = (am2, none))
    (hms : tl.Marshal token = some serialized) :
    handleIssueToken lib tl (.string h) tm am msg =
      some ({ Data := serialized, Log := "Issued " ++ token.Symbol }, tm2, am2) := by
  unfold handleIssueToken
  simp only
  rw [if_pos hlen]
  simp only [hex, Bool.false_eq_true, if_false, hnew, hst, hadd, hms]

/-- `AddCoins` of one non-negative `int64` coin is accepted by an account whose
coins are non-negative and leave room for it. -/
theorem Coins.isNotNegative_Plus64_single (a : Coins) (sym : String) (x : Int)
    (ha : ∀ c ∈ a, 0 ≤ c.Amount ∧ c.Amount + x ≤ maxInt64) (hx0 : 0 ≤ x) :
    IsNotNegative (PlusWith wrap64 a [⟨sym, x⟩]) = true := by
  induction a with
  | nil => simp [PlusWith, IsNotNegative, hx0]
  | cons c as ih =>
    have hc := ha c (List.mem_cons_self _ _)
    have has : ∀ c ∈ as, 0 ≤ c.Amount ∧ c.Amount + x ≤ maxInt64 :=
      fun c hc => ha c (List.mem_cons_of_mem _ hc)
    have hall : IsNotNegative as = true := by
      simp only [IsNotNegative, List.all_eq_true, decide_eq_true_eq]
      exact fun c hc => (has c hc).1
    have hw : wrap64 (c.Amount + x) = c.Amount + x := by
      apply wrap64_of_isInt64
      unfold isInt64 minInt64
      unfold maxInt64 at hc ⊢
      constructor <;> omega
    simp only [PlusWith, PlusWith.go]
    split_ifs with h1 h2 h3
    · rw [Coins.isNotNegative_cons]; exact ⟨hc.1, ih has⟩
    · rw [Coins.PlusWith_nil_right]; exact hall
    · rw [Coins.isNotNegative_cons, Coins.PlusWith_nil_right, hw]
      exact ⟨by simp only; omega, hall⟩
    · rw [Coins.isNotNegative_cons, Coins.isNotNegative_cons]
      exact ⟨hx0, hc.1, hall⟩

theorem AddCoinsWith_accepts (am : AccountMapper) (addr : AccAddress) (sym : String) (x : Int)
    (ha : ∀ c ∈ GetCoins am addr, 0 ≤ c.Amount ∧ c.Amount + x ≤ maxInt64) (hx0 : 0 ≤ x) :
    AddCoinsWith wrap64 am addr [⟨sym, x⟩] =
      (setCoins am addr (Coins.PlusWith wrap64 (GetCoins am addr) [⟨sym, x⟩]), none) := by
  unfold AddCoinsWith
  dsimp only
  rw [Coins.isNotNegative_Plus64_single _ sym x ha hx0]
  rfl

theorem suffixedSymbol_ne_empty (lib : Lib) (n : Nat) (msgSymbol : String) (h : List UInt8) :
    suffixedSymbol lib n msgSymbol h ≠ "" := by
  intro he
  have h2 := congrArg (fun s => s.data.length) he
  simp [suffixedSymbol] at h2

theorem specNewToken_ok (d : Nat) (name symbol : String) (s : Int) (owner : AccAddress)
    (mintable : Bool) (token : Token)
    (h : specNewToken d name symbol s owner mintable = .ok token) :
    token = ⟨name, symbol, s * 10 ^ d, owner, d, mintable⟩ ∧ 1 ≤ s ∧ s * 10 ^ d ≤ maxInt64 := by
  unfold specNewToken at h
  split_ifs at h with h1 h2
  have := Except.ok.inj h
  exact ⟨this.symm, by omega, by omega⟩

theorem specNewToken_accepts (d : Nat) (name symbol : String) (s : Int) (owner : AccAddress)
    (mintable : Bool) (hsym : symbol ≠ "") (h1 : 1 ≤ s) (h2 : s ≤ 9000000000000000000)
    (h3 : s * 10 ^ d ≤ maxInt64) :
    specNewToken d name symbol s owner mintable =
      .ok ⟨name, symbol, s * 10 ^ d, owner, d, mintable⟩ := by
  unfold specNewToken
  rw [if_neg hsym, if_neg (by omega)]

/-- C15: with a transaction hash `h` of at least `TokenSymbolTxHashSuffixLen`
bytes, `handleIssueToken` issues under the symbol made of the upper-cased symbol
of the message, a dash and the first `TokenSymbolTxHashSuffixLen` bytes of `h`
(for a hexadecimal hash, its first characters).  When no token has that symbol,
`NewToken` builds the token for it, the store takes the token, `AddCoins`
accepts the credit and the token is serialized, the handler succeeds, logs the
token and leaves it registered; every success is of that kind.  When a token
with that symbol exists the handler fails with `InvalidCoins`
(`already exists`) and leaves both stores as they were; when the hash is absent,
not a string or too short it fails with `Internal` and leaves both stores as
they were. -/
theorem handleIssueToken_symbol (lib : Lib) (tl : TokenLib) (txHash : ContextValue)
    (tm : TokenMapper) (am : AccountMapper) (msg : IssueMsg) :
    ((∀ h, txHash = .string h → h.length < tl.TokenSymbolTxHashSuffixLen) →
      handleIssueToken lib tl txHash tm am msg =
        some (ErrInternal "unable to get the txHash from Context", tm, am)) ∧
    (∀ h, txHash = .string h → h.length ≥ tl.TokenSymbolTxHashSuffixLen →
      tm.Exists (suffixedSymbol lib tl.TokenSymbolTxHashSuffixLen msg.Symbol h) = true →
      handleIssueToken lib tl txHash tm am msg =
        some (ErrInvalidCoins ("symbol(" ++ msg.Symbol ++ ") already exists"), tm, am)) ∧
    (∀ h token tm2 am2 serialized, txHash = .string h →
      h.length ≥ tl.TokenSymbolTxHashSuffixLen →
      tm.Exists (suffixedSymbol lib tl.TokenSymbolTxHashSuffixLen msg.Symbol h) = false →
      tl.NewToken msg.Name (lib.ToUpper msg.Symbol ++ "-" ++
        ofBytes (h.take tl.TokenSymbolTxHashSuffixLen)) msg.TotalSupply msg.From msg.Mintable =
        .ok token →
      tm.NewToken token = .ok tm2 →
      AddCoinsWith wrap64 am token.Owner [⟨token.Symbol, token.TotalSupply⟩] = (am2, none) →
      tl.Marshal token = some serialized →
      handleIssueToken lib tl txHash tm am msg =
        some ({ Data := serialized, Log := "Issued " ++ token.Symbol }, tm2, am2) ∧
      tm2 token.Symbol = some token) ∧
    (∀ h r, txHash = .string h → handleIssueToken lib tl txHash tm am msg = some r →
      r.1.Code = CodeType.OK →
      ∃ token,
        tl.NewToken msg.Name (lib.ToUpper msg.Symbol ++ "-" ++
          ofBytes (h.take tl.TokenSymbolTxHashSuffixLen)) msg.TotalSupply msg.From
          msg.Mintable = .ok token ∧
        tm.NewToken token = .ok r.2.1 ∧ r.1.Log = "Issued " ++ token.Symbol ∧
        r.2.1 token.Symbol = some token) := by
  refine ⟨fun hshort => ?_, fun h hh hlen hex => ?_,
    fun h token tm2 am2 serialized hh hlen hex hnew hst hadd hms => ?_,
    fun h r hh hr hok => ?_⟩
  · unfold handleIssueToken
    cases txHash with
    | absent => rfl
    | other => rfl
    | string h =>
      simp only
      rw [if_neg (not_le.mpr (hshort h rfl))]
  · subst hh
    unfold handleIssueToken
    simp only
    rw [if_pos hlen]
    simp only [hex, if_true]
  · subst hh
    exact ⟨handleIssueToken_ok_of lib tl h tm tm2 am am2 msg token serialized hlen hex hnew hst
      hadd hms, TokenMapper.NewToken_stored tm tm2 token hst⟩
  · obtain ⟨h2, token, serialized, hh2, _, _, hnew, hst, _, _, hres⟩ :=
      handleIssueToken_ok_inv lib tl txHash tm am msg r hr hok
    rw [hh] at hh2
    have heq : h = h2 := ContextValue.string.inj hh2
    subst heq
    exact ⟨token, hnew, hst, by rw [hres], TokenMapper.NewToken_stored tm r.2.1 token hst⟩

/-- C15 (witness): `owner` issues `tkn` with the hash `ABCDEF`: the handler
succeeds and the token is registered under `TKN-ABC`. -/
theorem handleIssueToken_symbol_witness :
    ∃ tm2 am2, handleIssueToken stdLib specTokenLib (.string hashABCDEF) tokensNone ownerEmpty
        ⟨"owner", "Token", "tkn", 1, true⟩ =
        some ({ Data := "Token:TKN-ABC", Log := "Issued TKN-ABC" }, tm2, am2) ∧
      tm2 "TKN-ABC" = some ⟨"Token", "TKN-ABC", 100000000, "owner", 8, true⟩ :=
  ⟨_, _, (handleIssueToken_symbol stdLib specTokenLib (.string hashABCDEF) tokensNone ownerEmpty
    ⟨"owner", "Token", "tkn", 1, true⟩).2.2.1 hashABCDEF
    ⟨"Token", "TKN-ABC", 100000000, "owner", 8, true⟩ _ _ "Token:TKN-ABC" rfl (by decide)
    (by decide) rfl rfl rfl rfl⟩

/-- C16: with `common.NewToken` as the spec has it (a token of `d` decimals holding
the supply `s × 10^d`), every successful `handleIssueToken` of total supply `s`
has stored the new token under the issued symbol and has raised the available
balance of the owner, whose coins are non-negative `int64` amounts, in that
symbol by exactly `s × 10^d`; every other available balance of the owner, the
locked and frozen balances of the owner and every other account are as they
were.  And the issue does succeed when the hash has enough bytes, the symbol is
not registered, the supply is in range, the coins of the owner leave room for
the credit and the token is serialized. -/
theorem handleIssueToken_credits (lib : Lib) (tl : TokenLib) (d : Nat) (tm : TokenMapper)
    (am : AccountMapper) (msg : IssueMsg) (hnew : tl.NewToken = specNewToken d)
    (hc : ∀ c ∈ GetCoins am msg.From, 0 ≤ c.Amount ∧ c.Amount ≤ maxInt64) :
    (∀ txHash r, handleIssueToken lib tl txHash tm am msg = some r → r.1.Code = CodeType.OK →
      ∃ h, txHash = .string h ∧
        r.2.1 (suffixedSymbol lib tl.TokenSymbolTxHashSuffixLen msg.Symbol h) =
          some ⟨msg.Name, suffixedSymbol lib tl.TokenSymbolTxHashSuffixLen msg.Symbol h,
            msg.TotalSupply * 10 ^ d, msg.From, d, msg.Mintable⟩ ∧
        (∀ sym, availableOf r.2.2 msg.From sym = availableOf am msg.From sym +
          (if suffixedSymbol lib tl.TokenSymbolTxHashSuffixLen msg.Symbol h = sym then
            msg.TotalSupply * 10 ^ d else 0)) ∧
        (∀ sym, lockedOf r.2.2 msg.From sym = lockedOf am msg.From sym) ∧
        (∀ sym, frozenOf r.2.2 msg.From sym = frozenOf am msg.From sym) ∧
        (∀ a, a ≠ msg.From → r.2.2 a = am a)) ∧
    (∀ h, h.length ≥ tl.TokenSymbolTxHashSuffixLen →
      tm (suffixedSymbol lib tl.TokenSymbolTxHashSuffixLen msg.Symbol h) = none →
      1 ≤ msg.TotalSupply → msg.TotalSupply ≤ 9000000000000000000 →
      msg.TotalSupply * 10 ^ d ≤ maxInt64 →
      (∀ c ∈ GetCoins am msg.From, c.Amount + msg.TotalSupply * 10 ^ d ≤ maxInt64) →
      (tl.Marshal ⟨msg.Name, suffixedSymbol lib tl.TokenSymbolTxHashSuffixLen msg.Symbol h,
        msg.TotalSupply * 10 ^ d, msg.From, d, msg.Mintable⟩).isSome = true →
      ∃ r, handleIssueToken lib tl (.string h) tm am msg = some r ∧ r.1.Code = CodeType.OK) := by
  constructor
  · intro txHash r hr hok
    obtain ⟨h, token, serialized, hh, _, _, hnt, hst, hadd, _, _⟩ :=
      handleIssueToken_ok_inv lib tl txHash tm am msg r hr hok
    rw [hnew] at hnt
    obtain ⟨htok, h1, h3⟩ := specNewToken_ok d _ _ _ _ _ token hnt
    subst htok
    simp only at hadd hst
    have hx : isInt64 (msg.TotalSupply * 10 ^ d) := by
      unfold isInt64 minInt64
      have : 0 ≤ msg.TotalSupply * 10 ^ d := by positivity
      constructor <;> omega
    have heff := AddCoinsWith_single_effect am r.2.2 msg.From _ _ hadd hc hx
    exact ⟨h, hh, TokenMapper.NewToken_stored tm r.2.1 _ hst, heff.1, heff.2.1, heff.2.2.1,
      heff.2.2.2⟩
  · intro h hlen hno h1 h2 h3 hroom hms
    have hpos : 0 ≤ msg.TotalSupply * 10 ^ d := by positivity
    obtain ⟨serialized, hser⟩ := Option.isSome_iff_exists.mp hms
    have hnt := specNewToken_accepts d msg.Name
      (suffixedSymbol lib tl.TokenSymbolTxHashSuffixLen msg.Symbol h) msg.TotalSupply msg.From
      msg.Mintable (suffixedSymbol_ne_empty _ _ _ _) h1 h2 h3
    rw [← hnew] at hnt
    have hst : tm.NewToken ⟨msg.Name,
        suffixedSymbol lib tl.TokenSymbolTxHashSuffixLen msg.Symbol h,
        msg.TotalSupply * 10 ^ d, msg.From, d, msg.Mintable⟩ =
        .ok (fun s =>
          if s = suffixedSymbol lib tl.TokenSymbolTxHashSuffixLen msg.Symbol h then
            some ⟨msg.Name, suffixedSymbol lib tl.TokenSymbolTxHashSuffixLen msg.Symbol h,
              msg.TotalSupply * 10 ^ d, msg.From, d, msg.Mintable⟩
          else tm s) := by
      unfold TokenMapper.NewToken
      simp only [hno, Option.isSome_none, Bool.false_eq_true, if_false]
    have hadd := AddCoinsWith_accepts am msg.From
      (suffixedSymbol lib tl.TokenSymbolTxHashSuffixLen msg.Symbol h)
      (msg.TotalSupply * 10 ^ d) (fun c hcm => ⟨(hc c hcm).1, hroom c hcm⟩) hpos
    exact ⟨_, handleIssueToken_ok_of lib tl h tm _ am _ msg _ serialized hlen
      (by unfold TokenMapper.Exists; rw [hno]; rfl) hnt hst hadd hser, rfl⟩

/-- C16 (witness): `owner`, who holds nothing, issues `tkn` with total supply 1
and 8 decimals: the handler succeeds and credits `10^8` of `TKN-ABC`. -/
theorem handleIssueToken_credits_witness :
    ∃ r, handleIssueToken stdLib specTokenLib (.string hashABCDEF) tokensNone ownerEmpty
        ⟨"owner", "Token", "tkn", 1, true⟩ = some r ∧ r.1.Code = CodeType.OK ∧
      availableOf r.2.2 "owner" "TKN-ABC" =
        availableOf ownerEmpty "owner" "TKN-ABC" + 1 * 10 ^ 8 :=
  match h : handleIssueToken stdLib specTokenLib (.string hashABCDEF) tokensNone ownerEmpty
      ⟨"owner", "Token", "tkn", 1, true⟩ with
  | some r =>
    have hok : r.1.Code = CodeType.OK := by
      have h2 : (handleIssueToken stdLib specTokenLib (.string hashABCDEF) tokensNone
          ownerEmpty ⟨"owner", "Token", "tkn", 1, true⟩).map (fun r => r.1.Code) =
          some CodeType.OK := by decide
      rw [h] at h2
      exact Option.some.inj h2
    match (handleIssueToken_credits stdLib specTokenLib 8 tokensNone ownerEmpty
      ⟨"owner", "Token", "tkn", 1, true⟩ rfl (by decide)).1 (.string hashABCDEF) r h hok with
    | ⟨h3, hh, _, hav, _⟩ => by
      have heq : hashABCDEF = h3 := ContextValue.string.inj hh
      subst heq
      have := hav "TKN-ABC"
      rw [if_pos (by decide)] at this
      exact ⟨r, rfl, hok, this⟩
  | none => by
    have h2 : (handleIssueToken stdLib specTokenLib (.string hashABCDEF) tokensNone ownerEmpty
        ⟨"owner", "Token", "tkn", 1, true⟩).isSome = true := by decide
    rw [h] at h2
    cases h2

/-! ## New order followed by cancel -/

theorem Coins.isNotNegative_Plus_single (a : Coins) (sym : String) (x : Int)
    (ha : IsNotNegative a = true) (hx : 0 ≤ x) : IsNotNegative (Plus a [⟨sym, x⟩]) = true := by
  unfold Plus
  induction a with
  | nil => simp [PlusWith, IsNotNegative, hx]
  | cons c as ih =>
    rw [Coins.isNotNegative_cons] at ha
    simp only [PlusWith, PlusWith.go, id]
    split_ifs with h1 h2 h3
    · rw [Coins.isNotNegative_cons]; exact ⟨ha.1, ih ha.2⟩
    · rw [Coins.PlusWith_nil_right]; exact ha.2
    · rw [Coins.isNotNegative_cons, Coins.PlusWith_nil_right]
      exact ⟨by simp only; omega, ha.2⟩
    · rw [Coins.isNotNegative_cons, Coins.isNotNegative_cons]
      exact ⟨hx, ha.1, ha.2⟩

theorem CalBigNotional_comm (q p : Int) : CalBigNotional q p = CalBigNotional p q := by
  unfold CalBigNotional
  rw [mul_comm q p]

theorem CalBigNotional_nonneg (q p : Int) (hq : 0 < q) (hp : 0 < p) :
    0 ≤ CalBigNotional q p := by
  unfold CalBigNotional
  have h := mul_pos hq hp
  apply Int.ediv_nonneg <;> omega

theorem SubtractCoinsWith_ok_nonneg (norm : Int → Int) (am : AccountMapper) (addr : AccAddress)
    (amt : Coins) (h : (SubtractCoinsWith norm am addr amt).2 = none) :
    (Coins.MinusWith norm (GetCoins am addr) amt).IsNotNegative = true := by
  unfold SubtractCoinsWith at h
  dsimp only at h
  by_cases hneg : (!(Coins.MinusWith norm (GetCoins am addr) amt).IsNotNegative) = true
  · rw [if_pos hneg] at h
    cases h
  · simpa using hneg

theorem GetCoins_setCoins (am : AccountMapper) (addr : AccAddress) (cs : Coins) :
    GetCoins (setCoins am addr cs) addr = cs := by
  unfold GetCoins setCoins AccountMapper.GetAccount AccountMapper.SetAccount
  cases am addr <;> simp

theorem updateLockedOfAccount_GetCoins (am am2 : AccountMapper) (addr : AccAddress)
    (symbol : String) (x : Int) (h : updateLockedOfAccount am addr symbol x = some am2) :
    GetCoins am2 addr = GetCoins am addr ∧ ∃ acc, am2.GetAccount addr = some acc := by
  unfold updateLockedOfAccount at h
  cases hacc : am.GetAccount addr with
  | none => simp [hacc] at h
  | some acc =>
    simp only [hacc, Option.some.injEq] at h
    subst h
    unfold GetCoins
    have hacc2 : am addr = some acc := hacc
    simp [hacc2, AccountMapper.GetAccount, AccountMapper.SetAccount]

theorem updateLockedOfAccount_isSome (am : AccountMapper) (addr : AccAddress) (symbol : String)
    (x : Int) (acc : NamedAccount) (h : am.GetAccount addr = some acc) :
    ∃ am2, updateLockedOfAccount am addr symbol x = some am2 := by
  unfold updateLockedOfAccount
  rw [h]
  exact ⟨_, rfl⟩

/-- After a successful `handleNewOrder` the sender has an account and its coins
pass `IsNotNegative`. -/
theorem handleNewOrder_ok_sender {K : Type} (lib : Lib) (ops : KeeperOps K) (ctx : Context)
    (keeper : K) (am : AccountMapper) (msg : NewOrderMsg) (r : Result × K × AccountMapper)
    (hr : handleNewOrder lib ops ctx keeper am msg = some r) (hok : r.1.Code = CodeType.OK) :
    (∃ acc, r.2.2.GetAccount msg.Sender = some acc) ∧
    (GetCoins r.2.2 msg.Sender).IsNotNegative = true := by
  unfold handleNewOrder at hr
  simp only at hr
  by_cases hdup : ctx.IsCheckTx = true ∧ (ops.OrderExists keeper msg.Id).isSome = true
  · rw [if_pos hdup] at hr
    have := Option.some.inj hr; subst this; cases hok
  · rw [if_neg hdup] at hr
    cases h64 : Int64 ((GetCoins am msg.Sender).AmountOf (lockOf lib msg).1) with
    | none => simp [h64] at hr
    | some v =>
      simp only [h64] at hr
      by_cases hlt : v < (lockOf lib msg).2
      · rw [if_pos hlt] at hr
        have := Option.some.inj hr; subst this; cases hok
      · rw [if_neg hlt] at hr
        cases hsub : SubtractCoinsWith id am msg.Sender
            [⟨(lockOf lib msg).1, (lockOf lib msg).2⟩] with
        | mk am1 oe =>
          cases oe with
          | some e =>
            simp only [hsub] at hr
            have he := (SubtractCoinsWith_error id am msg.Sender _ e (by rw [hsub])).2
            have := Option.some.inj hr; subst this
            rw [he] at hok; cases hok
          | none =>
            simp only [hsub] at hr
            have hok1 := SubtractCoinsWith_ok id am msg.Sender _ (by rw [hsub])
            have hnn := SubtractCoinsWith_ok_nonneg id am msg.Sender _ (by rw [hsub])
            rw [hsub] at hok1
            have h1 : am1 = setCoins am msg.Sender (Coins.MinusWith id (GetCoins am msg.Sender)
                [⟨(lockOf lib msg).1, (lockOf lib msg).2⟩]) := hok1
            cases hupd : updateLockedOfAccount am1 msg.Sender (lockOf lib msg).1
                (lockOf lib msg).2 with
            | none => simp [hupd] at hr
            | some am2 =>
              simp only [hupd] at hr
              have hg := updateLockedOfAccount_GetCoins am1 am2 _ _ _ hupd
              have hfin : (∃ acc, am2.GetAccount msg.Sender = some acc) ∧
                  (GetCoins am2 msg.Sender).IsNotNegative = true := by
                refine ⟨hg.2, ?_⟩
                rw [hg.1, h1, GetCoins_setCoins]
                exact hnn
              cases hchk : ctx.IsCheckTx with
              | true =>
                simp only [hchk] at hr
                have := Option.some.inj hr; subst this
                exact hfin
              | false =>
                simp only [hchk] at hr
                cases hadd : ops.AddOrder keeper msg ctx.BlockHeight with
                | error err =>
                  simp only [hadd] at hr
                  have := Option.some.inj hr; subst this; cases hok
                | ok k2 =>
                  simp only [hadd] at hr
                  have := Option.some.inj hr; subst this
                  exact hfin

theorem specOps_AddOrder_ok (k k2 : SpecKeeper) (msg : NewOrderMsg) (height : Int)
    (h : specOps.AddOrder k msg height = .ok k2) :
    k.find msg.Id = none ∧
      k2 = { k with Orders := k.Orders ++ [⟨msg, msg.Quantity, height⟩] } := by
  simp only [specOps] at h
  split_ifs at h with h1
  split at h
  · cases h
  · split_ifs at h with h2 h3
    have := Except.ok.inj h
    exact ⟨by simpa using h1, this.symm⟩

theorem SpecKeeper.find_append_new (k : SpecKeeper) (msg : NewOrderMsg) (leaves height : Int)
    (h : k.find msg.Id = none) :
    SpecKeeper.find { k with Orders := k.Orders ++ [⟨msg, leaves, height⟩] } msg.Id =
      some ⟨msg, leaves, height⟩ := by
  unfold SpecKeeper.find at h ⊢
  simp only [List.find?_append, h, Option.none_or]
  simp [List.find?]

theorem SpecKeeper.filter_append_new (k : SpecKeeper) (msg : NewOrderMsg) (leaves height : Int)
    (h : k.find msg.Id = none) :
    (k.Orders ++ [LiveOrder.mk msg leaves height]).filter
        (fun o => decide (o.Msg.Id ≠ msg.Id)) = k.Orders := by
  unfold SpecKeeper.find at h
  rw [List.find?_eq_none] at h
  rw [List.filter_append]
  have h1 : k.Orders.filter (fun o => decide (o.Msg.Id ≠ msg.Id)) = k.Orders := by
    rw [List.filter_eq_self]
    intro o ho
    simpa using h o ho
  rw [h1]
  simp

theorem unlockOf_eq_lockOf (ToUpper : String → String)
    (TradeSymbol2Ccy : String → String × String) (msg : NewOrderMsg) :
    unlockOf (specLib ToUpper TradeSymbol2Ccy) msg msg.Quantity =
      lockOf (specLib ToUpper TradeSymbol2Ccy) msg := by
  unfold unlockOf lockOf specLib
  simp only
  split_ifs
  · rw [CalBigNotional_comm]
  · rfl

theorem lockOf_nonneg (ToUpper : String → String) (TradeSymbol2Ccy : String → String × String)
    (msg : NewOrderMsg) (hq : 0 < msg.Quantity) (hp : 0 < msg.Price) :
    0 ≤ (lockOf (specLib ToUpper TradeSymbol2Ccy) msg).2 := by
  unfold lockOf specLib
  simp only
  split_ifs
  · exact CalBigNotional_nonneg _ _ hq hp
  · exact le_of_lt hq

/-- C19: on the spec-modelled keeper and `CalBigNotional`, when `handleNewOrder`
accepts an order of positive price and quantity in deliver mode, for a sender
whose locked balance of the lock symbol is non-negative and stays an `int64`
with the lock, a `handleCancelOrder` of that order by the same sender right
after it succeeds, leaves the keeper (order book) equal to the one before the
order, and leaves every available and locked balance of the sender and every
other account as before the order; the lock amount
`CalBigNotional(quantity, price)` is the unlock amount
`CalBigNotional(price, quantity)`. -/
theorem handleNewOrder_then_handleCancelOrder (ToUpper : String → String)
    (TradeSymbol2Ccy : String → String × String) (ctx ctx2 : Context) (keeper : SpecKeeper)
    (am : AccountMapper) (msg : NewOrderMsg) (r : Result × SpecKeeper × AccountMapper)
    (hd : ctx.IsCheckTx = false) (hd2 : ctx2.IsCheckTx = false)
    (hq : 0 < msg.Quantity) (hp : 0 < msg.Price)
    (hl0 : 0 ≤ lockedOf am msg.Sender (lockOf (specLib ToUpper TradeSymbol2Ccy) msg).1)
    (hl1 : lockedOf am msg.Sender (lockOf (specLib ToUpper TradeSymbol2Ccy) msg).1 +
      (lockOf (specLib ToUpper TradeSymbol2Ccy) msg).2 ≤ maxInt64)
    (hr : handleNewOrder (specLib ToUpper TradeSymbol2Ccy) specOps ctx keeper am msg = some r)
    (hok : r.1.Code = CodeType.OK) :
    CalBigNotional msg.Quantity msg.Price = CalBigNotional msg.Price msg.Quantity ∧
    ∃ r2, handleCancelOrder (specLib ToUpper TradeSymbol2Ccy) specOps ctx2 r.2.1 r.2.2
        ⟨msg.Sender, msg.Id⟩ = some r2 ∧
      r2.1.Code = CodeType.OK ∧ r2.2.1 = keeper ∧
      (∀ d, availableOf r2.2.2 msg.Sender d = availableOf am msg.Sender d) ∧
      (∀ d, lockedOf r2.2.2 msg.Sender d = lockedOf am msg.Sender d) ∧
      (∀ a, a ≠ msg.Sender → r2.2.2 a = am a) := by
  refine ⟨CalBigNotional_comm _ _, ?_⟩
  have hsender := handleNewOrder_ok_sender _ specOps ctx keeper am msg r hr hok
  rcases handleNewOrder_inv _ specOps ctx keeper am msg r hr with
    ⟨_, _, rfl⟩ | ⟨_, ⟨e, he, rfl⟩ | ⟨am2, hm, _, h⟩⟩
  · cases hok
  · rw [he] at hok; cases hok
  · rcases h with ⟨_, err, _, rfl⟩ | ⟨_, k2, hadd, rfl⟩ | ⟨hc, _⟩
    · cases hok
    · obtain ⟨hfind, hk2⟩ := specOps_AddOrder_ok keeper k2 msg ctx.BlockHeight hadd
      subst hk2
      obtain ⟨⟨acc, hacc⟩, hnn⟩ := hsender
      simp only at hacc hnn ⊢
      have hL := lockOf_nonneg ToUpper TradeSymbol2Ccy msg hq hp
      generalize hS : (lockOf (specLib ToUpper TradeSymbol2Ccy) msg).1 = S at *
      generalize hLv : (lockOf (specLib ToUpper TradeSymbol2Ccy) msg).2 = L at *
      have hun : unlockOf (specLib ToUpper TradeSymbol2Ccy) msg msg.Quantity = (S, L) := by
        rw [unlockOf_eq_lockOf, ← hS, ← hLv]
      have hex : specOps.OrderExists
          { keeper with Orders := keeper.Orders ++ [⟨msg, msg.Quantity, ctx.BlockHeight⟩] }
          msg.Id = some msg := by
        simp only [specOps]
        rw [SpecKeeper.find_append_new keeper msg _ _ hfind]
        rfl
      have hloc : locateOrder specOps ctx2
          { keeper with Orders := keeper.Orders ++ [⟨msg, msg.Quantity, ctx.BlockHeight⟩] }
          msg = .ok (⟨msg.Id, msg.Quantity, ctx.BlockHeight⟩, keeper) := by
        unfold locateOrder
        simp only [hd2, Bool.not_false, if_true, specOps]
        rw [SpecKeeper.find_append_new keeper msg _ _ hfind]
        simp only
        rw [SpecKeeper.filter_append_new keeper msg _ _ hfind]
      have hlocked : acc.LockedCoins.AmountOf S = lockedOf am msg.Sender S + L := by
        have := hm.2.1 S
        unfold lockedOf at this
        rw [hacc, if_pos rfl] at this
        exact this
      have h64 : Int64 (acc.LockedCoins.AmountOf S) = some (lockedOf am msg.Sender S + L) := by
        unfold Int64
        rw [hlocked, if_pos]
        unfold isInt64 minInt64
        constructor <;> omega
      have haddc : AddCoinsWith id am2 msg.Sender [⟨S, L⟩] =
          (setCoins am2 msg.Sender (Coins.Plus (GetCoins am2 msg.Sender) [⟨S, L⟩]), none) := by
        unfold AddCoinsWith
        dsimp only
        have := Coins.isNotNegative_Plus_single (GetCoins am2 msg.Sender) S L hnn hL
        unfold Coins.Plus at this
        rw [this]
        rfl
      obtain ⟨acc1, hacc1⟩ := setCoins_isSome am2 msg.Sender
        (Coins.Plus (GetCoins am2 msg.Sender) [⟨S, L⟩])
      obtain ⟨am3, hupd⟩ := updateLockedOfAccount_isSome _ msg.Sender S (wrap64 (-L)) acc1 hacc1
      refine ⟨({}, keeper, am3), ?_, rfl, rfl, fun d => ?_, fun d => ?_, fun a ha => ?_⟩
      · unfold handleCancelOrder
        simp only [hex, not_true_eq_false, if_false, hloc, hun, hacc, h64]
        rw [if_neg (by omega)]
        simp only [haddc, hupd]
      · rw [(updateLockedOfAccount_effect _ am3 _ _ _ hupd d).2, availableOf_setCoins,
          Coins.amountOf_Plus_single]
        have := hm.1 d
        unfold availableOf at this ⊢
        rw [this]
        ring
      · rw [(updateLockedOfAccount_effect _ am3 _ _ _ hupd d).1, lockedOf_setCoins, hm.2.1 d,
          wrap64_neg L (by unfold minInt64; omega) (by omega)]
        split_ifs <;> ring
      · show am3 a = am a
        rw [updateLockedOfAccount_other _ am3 _ _ _ hupd a ha, setCoins_other _ _ _ _ ha,
          hm.2.2 a ha]
    · rw [hd] at hc; cases hc

/-- C19 (witness): `alice` places the BUY `o2` of 5 at price `10^8` and cancels
it. -/
theorem handleNewOrder_then_handleCancelOrder_witness :
    ∃ r r2, handleNewOrder (specLib asciiUpper TradeSymbol2Ccy) specOps deliverCtx bookO1
        aliceUSD10 ⟨"alice", "o2", "BTC_USD", Side.BUY, 100000000, 5⟩ = some r ∧
      handleCancelOrder (specLib asciiUpper TradeSymbol2Ccy) specOps deliverCtx r.2.1 r.2.2
        ⟨"alice", "o2"⟩ = some r2 ∧
      r2.1.Code = CodeType.OK ∧ r2.2.1 = bookO1 ∧
      (∀ d, availableOf r2.2.2 "alice" d = availableOf aliceUSD10 "alice" d) ∧
      (∀ d, lockedOf r2.2.2 "alice" d = lockedOf aliceUSD10 "alice" d) :=
  match h : handleNewOrder (specLib asciiUpper TradeSymbol2Ccy) specOps deliverCtx bookO1
      aliceUSD10 ⟨"alice", "o2", "BTC_USD", Side.BUY, 100000000, 5⟩ with
  | some r =>
    have hok : r.1.Code = CodeType.OK := by
      have h2 : (handleNewOrder (specLib asciiUpper TradeSymbol2Ccy) specOps deliverCtx bookO1
          aliceUSD10 ⟨"alice", "o2", "BTC_USD", Side.BUY, 100000000, 5⟩).map
          (fun r => r.1.Code) = some CodeType.OK := by decide
      rw [h] at h2
      exact Option.some.inj h2
    match (handleNewOrder_then_handleCancelOrder asciiUpper TradeSymbol2Ccy deliverCtx
      deliverCtx bookO1 aliceUSD10 ⟨"alice", "o2", "BTC_USD", Side.BUY, 100000000, 5⟩ r rfl rfl
      (by decide) (by decide) (by decide) (by decide) h hok).2 with
    | ⟨r2, h1, h2, h3, h4, h5, _⟩ => ⟨r, r2, rfl, h1, h2, h3, h4, h5⟩
  | none => by
    have h2 : (handleNewOrder (specLib asciiUpper TradeSymbol2Ccy) specOps deliverCtx bookO1
        aliceUSD10 ⟨"alice", "o2", "BTC_USD", Side.BUY, 100000000, 5⟩).isSome = true := by
      decide
    rw [h] at h2
    cases h2

end BinanceChain
